import Mathlib

/-!
# Verification of the outscript UTXO core

A shallow embedding, over `List Nat` byte strings, of the outscript
repository's push-data codec, Bitcoin variable-length integer codec,
script-synthesis engine (`Script.Generate`), script classification
(`GuessOut`), address encoding (`Out.Address`), and the `BtcTx`
transaction codec, size estimator and signer.

Modelling conventions:
* a Go `[]byte` is a `List Nat` whose entries are byte values; where Go
  truncates through a fixed-width cast (`byte(x)`, `uint16`, `uint32`)
  the embedding applies the matching `% 2^w`;
* fallible Go functions return `Except String` (or `Option`); a Go
  runtime panic (out-of-bounds slice access) is represented by `none`
  of an outer `Option`;
* the cryptographic hash primitives (SHA-256, RIPEMD-160, the Keccak
  based ether hash) and the textual encoders (Base58, CashAddr, segwit
  bech32, EIP-55) are abstracted as parameters collected in an `Env`
  structure: every theorem quantifies over the environment, adding only
  the facts it needs (such as output lengths);
* the secp256k1 public-key serializations are abstracted as the
  optional fields of a `PubKey` (a key type that does not support a
  serialization has `none`, mirroring the capability checks of
  `Script.getPubKeyBytes`).
-/

/-! ## Little-endian fixed-width integer encoding (encoding/binary) -/

/-- Little-endian 2-byte encoding, as `binary.LittleEndian.PutUint16`
(the value is truncated to 16 bits as by Go's `uint16` cast). -/
def le16 (n : Nat) : List Nat :=
  [n % 256, n / 256 % 256]

/-- Little-endian 4-byte encoding, as `binary.LittleEndian.PutUint32`/
`AppendUint32` (truncated to 32 bits as by Go's `uint32` cast). -/
def le32 (n : Nat) : List Nat :=
  [n % 256, n / 256 % 256, n / 2 ^ 16 % 256, n / 2 ^ 24 % 256]

/-- Little-endian 8-byte encoding, as `binary.LittleEndian.AppendUint64`. -/
def le64 (n : Nat) : List Nat :=
  [n % 256, n / 256 % 256, n / 2 ^ 16 % 256, n / 2 ^ 24 % 256,
   n / 2 ^ 32 % 256, n / 2 ^ 40 % 256, n / 2 ^ 48 % 256, n / 2 ^ 56 % 256]

/-! ## Push-data codec (`PushBytes` / `ParsePushBytes`) -/

/-- `PushBytes` encodes a byte slice as a Bitcoin script push operation,
choosing a direct push for data of at most 75 bytes and OP_PUSHDATA1/2/4
(opcodes 0x4c/0x4d/0x4e) for larger data, with the length in little-endian
order; the OP_PUSHDATA4 length goes through Go's `uint32` cast. -/
def PushBytes (v : List Nat) : List Nat :=
  if v.length ≤ 75 then v.length :: v
  else if v.length ≤ 0xff then 0x4c :: v.length :: v
  else if v.length ≤ 0xffff then 0x4d :: le16 v.length ++ v
  else 0x4e :: le32 v.length ++ v

/-- `ParsePushBytes` decodes a push operation at the start of `v`.
The result mirrors Go's `([]byte, int)` pair: `some (some d, n)` is a
successful parse of data `d` consuming `n` bytes, `some (none, 0)` is the
`(nil, 0)` error return, and the outer `none` marks a runtime panic —
the source indexes `v[0]`, `v[:2]`, `v[:4]` after the 0x4c/0x4d/0x4e
opcode without first checking that those bytes exist. -/
def ParsePushBytes (v : List Nat) : Option (Option (List Nat) × Nat) :=
  match v with
  | [] => some (none, 0)
  | p :: rest =>
    if p ≤ 75 then
      if p ≤ rest.length then some (some (rest.take p), p + 1)
      else some (none, 0)
    else if p = 0x4c then
      match rest with
      | [] => none
      | q :: rest2 =>
        if q ≤ rest2.length then some (some (rest2.take q), q + 2)
        else some (none, 0)
    else if p = 0x4d then
      match rest with
      | b0 :: b1 :: rest2 =>
        let l := b0 + 256 * b1
        if l ≤ rest2.length then some (some (rest2.take l), l + 3)
        else some (none, 0)
      | _ => none
    else if p = 0x4e then
      match rest with
      | b0 :: b1 :: b2 :: b3 :: rest2 =>
        let l := b0 + 256 * b1 + 2 ^ 16 * b2 + 2 ^ 24 * b3
        if l ≤ rest2.length then some (some (rest2.take l), l + 5)
        else some (none, 0)
      | _ => none
    else some (none, 0)

/-- The package-internal `parsePushBytes` used by the address encoder:
same recognizer, but it returns only the data (`some (some d)` success,
`some none` the `nil` error return, outer `none` a panic). -/
def parsePushBytesData (v : List Nat) : Option (Option (List Nat)) :=
  (ParsePushBytes v).map Prod.fst

/-! ## Bitcoin variable-length integer (`BtcVarInt`) -/

/-- `BtcVarInt.Bytes`: values up to 0xfc as one byte, then tag 0xfd/0xfe/0xff
followed by a 2/4/8-byte little-endian payload. -/
def btcVarIntBytes (v : Nat) : List Nat :=
  if v ≤ 0xfc then [v]
  else if v ≤ 0xffff then 0xfd :: le16 v
  else if v ≤ 0xffffffff then 0xfe :: le32 v
  else 0xff :: le64 v

/-- `BtcVarInt.Len`: the number of bytes `btcVarIntBytes` produces. -/
def btcVarIntLen (v : Nat) : Nat :=
  if v ≤ 0xfc then 1
  else if v ≤ 0xffff then 3
  else if v ≤ 0xffffffff then 5
  else 9

/-- `BtcVarInt.ReadFrom` over a byte list: decode a variable-length integer
from the front of the list, returning the value and the unconsumed tail;
`none` is the read-past-end I/O error. -/
def btcVarIntRead (buf : List Nat) : Option (Nat × List Nat) :=
  match buf with
  | [] => none
  | t :: rest =>
    if t ≤ 0xfc then some (t, rest)
    else if t = 0xfd then
      match rest with
      | b0 :: b1 :: r => some (b0 + 256 * b1, r)
      | _ => none
    else if t = 0xfe then
      match rest with
      | b0 :: b1 :: b2 :: b3 :: r =>
        some (b0 + 256 * b1 + 2 ^ 16 * b2 + 2 ^ 24 * b3, r)
      | _ => none
    else
      match rest with
      | b0 :: b1 :: b2 :: b3 :: b4 :: b5 :: b6 :: b7 :: r =>
        some (b0 + 256 * b1 + 2 ^ 16 * b2 + 2 ^ 24 * b3 + 2 ^ 32 * b4
          + 2 ^ 40 * b5 + 2 ^ 48 * b6 + 2 ^ 56 * b7, r)
      | _ => none

/-! ## Abstracted cryptography and text encoders -/

/-- The hash primitives the format table chains through `cryptutil.Hash`. -/
inductive HashFn where
  | hsha256
  | hripemd160
  | hether
deriving DecidableEq

/-- The abstracted external primitives: the three hash functions and the
textual address encoders (Base58, CashAddr, segwit bech32, EIP-55).
Theorems quantify over an `Env`, assuming only what they need. -/
structure Env where
  hashf : HashFn → List Nat → List Nat
  b58enc : List Nat → String
  cashAddrEnc : Nat → List Nat → Except String String
  segwitAddrEnc : String → Nat → List Nat → Except String String
  ethChecksum : List Nat → String

/-- `cryptutil.Hash`: run the value through the chain of hash functions. -/
def cryptHash (env : Env) (v : List Nat) (hs : List HashFn) : List Nat :=
  hs.foldl (fun acc h => env.hashf h acc) v

/-- HASH160: SHA-256 followed by RIPEMD-160. -/
def hash160 (env : Env) (v : List Nat) : List Nat :=
  cryptHash env v [.hsha256, .hripemd160]

/-- Double SHA-256. -/
def sha256d (env : Env) (v : List Nat) : List Nat :=
  env.hashf .hsha256 (env.hashf .hsha256 v)

/-- A public key abstracted by its available serializations, mirroring the
capability checks of `Script.getPubKeyBytes`: a key type that cannot
produce a serialization has `none` there. -/
structure PubKey where
  pkix : Option (List Nat) := none
  ed : Option (List Nat) := none
  comp : Option (List Nat) := none
  uncomp : Option (List Nat) := none
deriving DecidableEq

/-- `Script.getPubKeyBytes`: return the key in the requested encoding, or
an error when the key type does not support it. -/
def getPubKeyBytes (pk : PubKey) (typ : String) : Except String (List Nat) :=
  if typ = "pubkey:pkix" then
    match pk.pkix with
    | some b => .ok b
    | none => .error "failed to marshal PKIX public key"
  else if typ = "pubkey:ed25519" then
    match pk.ed with
    | some b => .ok b
    | none => .error ("pubkey does not support " ++ typ ++ " export")
  else if typ = "pubkey:comp" then
    match pk.comp with
    | some b => .ok b
    | none => .error ("pubkey does not support " ++ typ ++ " export")
  else if typ = "pubkey:uncomp" then
    match pk.uncomp with
    | some b => .ok b
    | none => .error ("pubkey does not support " ++ typ ++ " export")
  else .error ("unknown public key format " ++ typ)

/-! ## Insertable primitives and the format table -/

/-- The `Insertable` variants of the source: literal bytes (`Bytes`), a
named lookup through the Script engine (`Lookup`), push-data wrapping
(`IPushBytes`), hash-chain wrapping (`IHashInfo`), and the public-key
selectors `IPubKeyComp`/`IPubKey` (which route through
`getPubKeyBytes "pubkey:comp"` / `"pubkey:uncomp"`). -/
inductive Insertable where
  | lit (bs : List Nat)
  | lookupName (name : String)
  | push (i : Insertable)
  | ihash (i : Insertable) (hs : List HashFn)
  | pubKeySel (typ : String)

/-- The static format table of `format.go`, as an association list in the
source's order. -/
def Formats : List (String × List Insertable) :=
  let hash160c : List HashFn := [.hsha256, .hripemd160]
  let comp : Insertable := .pubKeySel "pubkey:comp"
  let uncomp : Insertable := .pubKeySel "pubkey:uncomp"
  [("p2pkh", [.lit [0x76, 0xa9], .push (.ihash comp hash160c), .lit [0x88, 0xac]]),
   ("p2pukh", [.lit [0x76, 0xa9], .push (.ihash uncomp hash160c), .lit [0x88, 0xac]]),
   ("p2pk", [.push comp, .lit [0xac]]),
   ("p2puk", [.push uncomp, .lit [0xac]]),
   ("p2wpkh", [.lit [0], .push (.ihash comp hash160c)]),
   ("p2sh:p2pkh", [.lit [0xa9], .push (.ihash (.lookupName "p2pkh") hash160c), .lit [0x87]]),
   ("p2sh:p2pukh", [.lit [0xa9], .push (.ihash (.lookupName "p2pukh") hash160c), .lit [0x87]]),
   ("p2sh:p2pk", [.lit [0xa9], .push (.ihash (.lookupName "p2pk") hash160c), .lit [0x87]]),
   ("p2sh:p2puk", [.lit [0xa9], .push (.ihash (.lookupName "p2puk") hash160c), .lit [0x87]]),
   ("p2sh:p2wpkh", [.lit [0xa9], .push (.ihash (.lookupName "p2wpkh") hash160c), .lit [0x87]]),
   ("p2wsh:p2pkh", [.lit [0], .push (.ihash (.lookupName "p2pkh") [.hsha256])]),
   ("p2wsh:p2pukh", [.lit [0], .push (.ihash (.lookupName "p2pukh") [.hsha256])]),
   ("p2wsh:p2pk", [.lit [0], .push (.ihash (.lookupName "p2pk") [.hsha256])]),
   ("p2wsh:p2puk", [.lit [0], .push (.ihash (.lookupName "p2puk") [.hsha256])]),
   ("p2wsh:p2wpkh", [.lit [0], .push (.ihash (.lookupName "p2wpkh") [.hsha256])]),
   ("eth", [.ihash uncomp [.hether]])]

/-- Lookup in the format table. -/
def findFormat (name : String) : Option (List Insertable) :=
  match Formats.find? (fun p => p.1 = name) with
  | some p => some p.2
  | none => none

/-! ## The Script engine (`Script.Generate`) -/

/-- The `Script` state: the public key and the append-only name→bytes
memoization cache. -/
structure ScriptS where
  pk : PubKey
  cache : List (String × List Nat)

/-- `New`: a fresh `Script` with an empty cache. -/
def newScript (pk : PubKey) : ScriptS := ⟨pk, []⟩

/-- Cache lookup (the Go map read `s.cache[name]`). -/
def lookupCache : List (String × List Nat) → String → Option (List Nat)
  | [], _ => none
  | (k, v) :: t, n => if k = n then some v else lookupCache t n

/-- Evaluate one `Insertable` (`Insertable.Bytes`), threading the Script
state; `g` is the engine's `Generate`, invoked by `Lookup` pieces. -/
def genIns (env : Env) (g : ScriptS → String → Except String (List Nat) × ScriptS) :
    ScriptS → Insertable → Except String (List Nat) × ScriptS
  | s, .lit bs => (.ok bs, s)
  | s, .lookupName n => g s n
  | s, .push i =>
    match genIns env g s i with
    | (.error e, s') => (.error e, s')
    | (.ok v, s') => (.ok (PushBytes v), s')
  | s, .ihash i hs =>
    match genIns env g s i with
    | (.error e, s') => (.error e, s')
    | (.ok v, s') => (.ok (cryptHash env v hs), s')
  | s, .pubKeySel typ => (getPubKeyBytes s.pk typ, s)

/-- Evaluate the pieces of a format in order, concatenating the results. -/
def genPieces (env : Env) (g : ScriptS → String → Except String (List Nat) × ScriptS) :
    ScriptS → List Insertable → Except String (List Nat) × ScriptS
  | s, [] => (.ok [], s)
  | s, i :: t =>
    match genIns env g s i with
    | (.error e, s') => (.error e, s')
    | (.ok v, s') =>
      match genPieces env g s' t with
      | (.error e, s'') => (.error e, s'')
      | (.ok vs, s'') => (.ok (v ++ vs), s'')

/-- `Script.Generate`: cached bytes if present; else the public-key special
names resolve through `getPubKeyBytes`, other names through the format
table, caching the result. The fuel bounds the `Lookup` recursion depth
(the source recurses without a bound; the table's chains are at most three
deep, so any fuel beyond that is equivalent). -/
def generate : Nat → Env → ScriptS → String → Except String (List Nat) × ScriptS
  | 0, _, s, _ => (.error "generate recursion too deep", s)
  | fuel + 1, env, s, name =>
    match lookupCache s.cache name with
    | some r => (.ok r, s)
    | none =>
      if name = "pubkey:pkix" ∨ name = "pubkey:ed25519" ∨ name = "pubkey:comp"
          ∨ name = "pubkey:uncomp" then
        match getPubKeyBytes s.pk name with
        | .error e => (.error e, s)
        | .ok res => (.ok res, ⟨s.pk, (name, res) :: s.cache⟩)
      else
        match findFormat name with
        | none => (.error ("unsupported format " ++ name), s)
        | some f =>
          match genPieces env (fun s' n => generate fuel env s' n) s f with
          | (.error e, s') => (.error e, s')
          | (.ok res, s') => (.ok res, ⟨s'.pk, (name, res) :: s'.cache⟩)

/-- Ample fuel for the table's lookup chains (depth at most three). -/
def genFuel : Nat := 12

/-- `New(pubkey).Generate(name)`: generation from a fresh Script. -/
def scriptGen (env : Env) (pk : PubKey) (name : String) : Except String (List Nat) :=
  (generate genFuel env (newScript pk) name).1

/-! ## `Out` and script classification (`GuessOut`) -/

/-- An `Out`: a format name, the raw script bytes and optional network
flags. (The source also stores the hex rendering of `raw` in a `Script`
string field; it is derived data and is not modelled.) -/
structure Out where
  name : String
  raw : List Nat
  flags : List String
deriving DecidableEq

/-- `makeOut`. -/
def makeOut (name : String) (script : List Nat) (flags : List String := []) : Out :=
  ⟨name, script, flags⟩

/-- The hint loop of `GuessOut`: generate each candidate format from the
shared hint `Script` (threading its cache) and return the first whose
bytes equal the script; generation errors are skipped. -/
def tryFormats (env : Env) (script : List Nat) :
    ScriptS → List String → Option String
  | _, [] => none
  | s, e :: t =>
    match generate genFuel env s e with
    | (.error _, s') => tryFormats env script s' t
    | (.ok buf, s') =>
      if buf = script then some e else tryFormats env script s' t

/-- `GuessOut`: classify arbitrary script bytes by structural pattern
match, using the Script engine on the optional public-key hint to
disambiguate hashed forms. `none` marks a panic propagated out of
`ParsePushBytes` (unreachable on the shapes the claims quantify over). -/
def GuessOut (env : Env) (script : List Nat) (hint : Option PubKey) : Option Out :=
  match script with
  | [] => some (makeOut "empty" script ["invalid"])
  | s0 :: _ =>
    if s0 = 0 then
      if script.length = 22 then some (makeOut "p2wpkh" script)
      else if script.length = 34 then some (makeOut "p2wsh" script)
      else some (makeOut "invalid" script)
    else if s0 = 0x51 then
      if script.length = 32 then some (makeOut "p2tr" script)
      else some (makeOut "invalid" script)
    else if s0 = 0x6a then some (makeOut "op_return" script)
    else if script.getLastD 0 = 0xac then
      if script.length = 25 ∧ script.take 3 = [0x76, 0xa9, 0x14]
          ∧ script.drop 23 = [0x88, 0xac] then
        match hint with
        | none => some (makeOut "p2pkh" script)
        | some pk =>
          match tryFormats env script (newScript pk) ["p2pkh", "p2pukh"] with
          | some e => some (makeOut e script)
          | none => some (makeOut "p2pkh" script)
      else
        match ParsePushBytes script with
        | none => none
        | some (some v, _) =>
          if PushBytes v ++ [0xac] = script then
            if v.length = 33 then some (makeOut "p2pk" script)
            else if v.length = 65 then some (makeOut "p2puk" script)
            else some (makeOut "invalid" script)
          else some (makeOut "invalid" script)
        | some (none, _) => some (makeOut "invalid" script)
    else if script.getLastD 0 = 0x87 then
      match ParsePushBytes script.tail with
      | none => none
      | some (some v, _) =>
        if 0xa9 :: (PushBytes v ++ [0x87]) = script then
          match hint with
          | none => some (makeOut "p2sh" script)
          | some pk =>
            match tryFormats env script (newScript pk)
                ["p2sh:p2pk", "p2sh:p2pkh", "p2sh:p2puk", "p2sh:p2pukh",
                 "p2sh:p2wpkh"] with
            | some e => some (makeOut e script)
            | none => some (makeOut "p2sh" script)
        else some (makeOut "invalid" script)
      | some (none, _) => some (makeOut "invalid" script)
    else some (makeOut "invalid" script)

/-! ## Address encoding (`Out.Address`) -/

/-- The format name before any `:` separator (`Out.baseName`). -/
def baseName (name : String) : String :=
  String.mk (name.data.takeWhile (fun c => c ≠ ':'))

/-- `encodeBase58addr`: version byte, payload, then the first four bytes of
the double SHA-256 checksum, Base58-encoded. -/
def encodeBase58addr (env : Env) (vers : Nat) (buf : List Nat) : String :=
  env.b58enc (vers :: buf ++ (sha256d env (vers :: buf)).take 4)

/-- `Out.Address`: encode the script as a network address, dispatching on
the base format name and the first flag (hints first, then the flags
stored on the `Out`). `none` marks a Go slice-bounds panic on a script
too short for its branch. -/
def outAddress (env : Env) (out : Out) (flags : List String) :
    Option (Except String String) :=
  let flags' := flags ++ out.flags
  let net := match flags' with | [] => "" | f :: _ => f
  let base := baseName out.name
  if base = "eth" ∨ base = "evm" then some (.ok (env.ethChecksum out.raw))
  else if base = "massa" then
    match out.raw with
    | [] => none
    | typ :: buf =>
      let b := env.b58enc (buf ++ (sha256d env buf).take 4)
      if typ = 0 then some (.ok ("AU" ++ b))
      else if typ = 1 then some (.ok ("AS" ++ b))
      else some (.error "unsupported value for massa address type")
  else if base = "p2pkh" ∨ base = "p2pukh" then
    if out.raw.length < 4 then none
    else
      match parsePushBytesData ((out.raw.drop 2).take (out.raw.length - 4)) with
      | none => none
      | some none => some (.error "invalid script for address type")
      | some (some h) =>
        if net = "bitcoin-cash" ∨ net = "bitcoincash" then
          some (env.cashAddrEnc 0 h)
        else if net = "litecoin" then some (.ok (encodeBase58addr env 0x30 h))
        else if net = "dogecoin" then some (.ok (encodeBase58addr env 0x1e h))
        else if net = "monacoin" then some (.ok (encodeBase58addr env 0x32 h))
        else if net = "electraproto" then some (.ok (encodeBase58addr env 0x37 h))
        else some (.ok (encodeBase58addr env 0 h))
  else if base = "p2sh" then
    if out.raw.length < 2 then none
    else
      match parsePushBytesData ((out.raw.drop 1).take (out.raw.length - 2)) with
      | none => none
      | some none => some (.error "invalid script for address type")
      | some (some h) =>
        if net = "bitcoin-cash" ∨ net = "bitcoincash" then
          some (env.cashAddrEnc 1 h)
        else if net = "litecoin" then some (.ok (encodeBase58addr env 0x32 h))
        else if net = "dogecoin" then some (.ok (encodeBase58addr env 0x16 h))
        else if net = "monacoin" then some (.ok (encodeBase58addr env 0x37 h))
        else if net = "electraproto" then some (.ok (encodeBase58addr env 0x89 h))
        else some (.ok (encodeBase58addr env 0x05 h))
  else if base = "p2wpkh" ∨ base = "p2wsh" then
    if out.raw.length < 1 then none
    else
      match parsePushBytesData (out.raw.drop 1) with
      | none => none
      | some d? =>
        let buf := d?.getD []
        if net = "litecoin" then some (env.segwitAddrEnc "ltc" 0 buf)
        else if net = "bitcoin" then some (env.segwitAddrEnc "bc" 0 buf)
        else if net = "monacoin" then some (env.segwitAddrEnc "mona" 0 buf)
        else if net = "electraproto" then some (env.segwitAddrEnc "ep" 0 buf)
        else some (.error ("could not transform outscript of format " ++ out.name))
  else some (.error ("could not transform outscript of format " ++ out.name))

/-! ## The transaction model (`BtcTx`) -/

/-- A transaction input. `txid` is the 32-byte previous transaction id in
the internal (display) byte order; serialization reverses it. -/
structure BtcTxInput where
  txid : List Nat
  vout : Nat
  script : List Nat
  sequence : Nat
  witnesses : List (List Nat)
deriving DecidableEq

/-- A transaction output. (The source's `N` field is display-only
bookkeeping — "not stored" — and is not modelled.) -/
structure BtcTxOutput where
  amount : Nat
  script : List Nat
deriving DecidableEq

/-- A transaction. -/
structure BtcTx where
  version : Nat
  inputs : List BtcTxInput
  outputs : List BtcTxOutput
  locktime : Nat
deriving DecidableEq

/-- `BtcTxInput.Bytes`: reversed txid, vout, varint-prefixed script,
sequence. -/
def inputBytes (i : BtcTxInput) : List Nat :=
  i.txid.reverse ++ le32 i.vout ++ btcVarIntBytes i.script.length
    ++ i.script ++ le32 i.sequence

/-- `BtcTxOutput.Bytes`: 8-byte amount then varint-prefixed script. -/
def outputBytes (o : BtcTxOutput) : List Nat :=
  le64 o.amount ++ btcVarIntBytes o.script.length ++ o.script

/-- One input's witness section: the item-count varint then each item
varint-length-prefixed. -/
def witnessBytes (i : BtcTxInput) : List Nat :=
  btcVarIntBytes i.witnesses.length
    ++ (i.witnesses.map (fun b => btcVarIntBytes b.length ++ b)).flatten

/-- `BtcTx.HasWitness`: some input carries a non-empty witness stack. -/
def hasWitness (tx : BtcTx) : Bool :=
  tx.inputs.any (fun i => i.witnesses.length > 0)

/-- `BtcTx.exportBytes`: version, optional marker/flag pair, varint-counted
inputs and outputs, optional witness section, locktime. -/
def exportBytes (tx : BtcTx) (wit : Bool) : List Nat :=
  le32 tx.version
    ++ (if wit then [0, 1] else [])
    ++ btcVarIntBytes tx.inputs.length
    ++ (tx.inputs.map inputBytes).flatten
    ++ btcVarIntBytes tx.outputs.length
    ++ (tx.outputs.map outputBytes).flatten
    ++ (if wit then (tx.inputs.map witnessBytes).flatten else [])
    ++ le32 tx.locktime

/-- `BtcTxInput.computeSize`: the input's serialized length. -/
def inputComputeSize (i : BtcTxInput) : Nat :=
  32 + 4 + btcVarIntLen i.script.length + i.script.length + 4

/-- `BtcTxInput.computeWitnessSize`: the input's witness-section length. -/
def inputWitnessSize (i : BtcTxInput) : Nat :=
  btcVarIntLen i.witnesses.length
    + (i.witnesses.map (fun b => btcVarIntLen b.length + b.length)).sum

/-- `BtcTxOutput.computeSize`: the output's serialized length. -/
def outputComputeSize (o : BtcTxOutput) : Nat :=
  8 + btcVarIntLen o.script.length + o.script.length

/-- `BtcTx.ComputeSize`: the fee-estimation size — the witness-free size,
plus, when witness data is present, the marker/flag pair and witness
bytes at one-quarter weight, ceiling-rounded (the pair is added to the
witness byte count before the division). -/
def computeSize (tx : BtcTx) : Nat :=
  let ln := 4 + btcVarIntLen tx.inputs.length + btcVarIntLen tx.outputs.length + 4
    + (tx.inputs.map inputComputeSize).sum + (tx.outputs.map outputComputeSize).sum
  let witln := (tx.inputs.map inputWitnessSize).sum
  if witln = 0 then ln
  else
    let witln := witln + 2
    ln + witln / 4 + (if witln % 4 ≠ 0 then 1 else 0)

/-- `BtcTxInput.preimageBytes`: (reversed txid ++ vout, sequence). -/
def preimageBytes (i : BtcTxInput) : List Nat × List Nat :=
  (i.txid.reverse ++ le32 i.vout, le32 i.sequence)

/-- `BtcTx.preimage`: the shared BIP-143 preimage parts —
version ‖ hash256(all outpoints) ‖ hash256(all sequences), and
hash256(all serialized outputs) ‖ locktime. -/
def preimage (env : Env) (tx : BtcTx) : List Nat × List Nat :=
  let aCat := (tx.inputs.map (fun i => (preimageBytes i).1)).flatten
  let bCat := (tx.inputs.map (fun i => (preimageBytes i).2)).flatten
  let oCat := (tx.outputs.map outputBytes).flatten
  (le32 tx.version ++ sha256d env aCat ++ sha256d env bCat,
   sha256d env oCat ++ le32 tx.locktime)

/-- `BtcTx.ClearInputs`: drop every input's script and witnesses. -/
def clearInputs (tx : BtcTx) : BtcTx :=
  { tx with inputs := tx.inputs.map (fun i => { i with script := [], witnesses := [] }) }

/-- Replace input `n` through `f` (the Go in-place `tx.In[n]` mutation). -/
def modifyInput (tx : BtcTx) (n : Nat) (f : BtcTxInput → BtcTxInput) : BtcTx :=
  { tx with inputs := tx.inputs.set n (f (tx.inputs.getD n ⟨[], 0, [], 0, []⟩)) }

/-- One signing entry (`BtcTxSign`). The `crypto.Signer` is abstracted to
its public key and a signing function from digest to signature bytes;
quantifying theorems over `signFn` covers the source's randomized ECDSA
signing. (`Options` only selects the digest handling inside the signer
and has no effect on the byte layout, so it is part of `signFn`.) -/
structure BtcTxSign where
  pub : PubKey
  signFn : List Nat → Except String (List Nat)
  scheme : String
  amount : Nat
  sigHash : Nat

/-- The BIP-143 preimage signed by `p2wpkhSign`: prefix, outpoint, the
push-wrapped P2PKH-shaped scriptCode over the signer's key hash, amount,
sequence, suffix and sighash type. -/
def p2wpkhSignString (env : Env) (tx : BtcTx) (n : Nat) (amount sigH : Nat)
    (pubKey pfxB sfxB : List Nat) : List Nat :=
  pfxB ++ (preimageBytes (tx.inputs.getD n ⟨[], 0, [], 0, []⟩)).1
    ++ PushBytes ([0x76, 0xa9] ++ PushBytes (hash160 env pubKey) ++ [0x88, 0xac])
    ++ le64 amount ++ (preimageBytes (tx.inputs.getD n ⟨[], 0, [], 0, []⟩)).2
    ++ sfxB ++ le32 sigH

/-- The per-scheme placement `p2wpkhSign` makes of the signature: legacy
script for fork-id `p2pkh`/`p2pukh`, witness stack for `p2wpkh`, witness
stack plus the wrapped witness program for `p2sh:p2wpkh`. -/
def p2wpkhUpdate (env : Env) (tx : BtcTx) (n : Nat) (scheme : String) (sigH : Nat)
    (pubKey sg0 : List Nat) : BtcTx :=
  let sg := sg0 ++ [sigH % 256]
  if scheme = "p2pkh" ∨ scheme = "p2pukh" then
    modifyInput tx n (fun j => { j with script := PushBytes sg ++ PushBytes pubKey })
  else if scheme = "p2wpkh" then
    modifyInput tx n (fun j => { j with witnesses := [sg, pubKey], script := [] })
  else if scheme = "p2sh:p2wpkh" then
    modifyInput tx n (fun j =>
      { j with witnesses := [sg, pubKey], script := PushBytes (0 :: PushBytes (hash160 env pubKey)) })
  else tx

/-- `BtcTx.p2wpkhSign`: BIP-143-style signing of input `n`, shared by the
`p2wpkh`, `p2sh:p2wpkh` and fork-id `p2pkh`/`p2pukh` schemes. `sigH` is
the entry's sighash type after the SIGHASH_ALL defaulting. -/
def p2wpkhSign (env : Env) (tx : BtcTx) (n : Nat) (k : BtcTxSign) (sigH : Nat)
    (pfxB sfxB : List Nat) : Except String BtcTx :=
  match (if k.scheme = "p2pukh" then scriptGen env k.pub "pubkey:uncomp"
         else scriptGen env k.pub "pubkey:comp") with
  | .error e => .error e
  | .ok pubKey =>
    match k.signFn (sha256d env (p2wpkhSignString env tx n k.amount sigH pubKey pfxB sfxB)) with
    | .error e => .error e
    | .ok sg0 => .ok (p2wpkhUpdate env tx n k.scheme sigH pubKey sg0)

/-- The working duplicate prepared for a legacy sighash: all input
scripts and witnesses cleared, then the signing input's script set to
its expected scriptPubKey. -/
def setWorkScript (wtx : BtcTx) (n : Nat) (scr : List Nat) : BtcTx :=
  modifyInput (clearInputs wtx) n (fun j => { j with script := scr })

/-- The lazily computed segwit preimage parts: reuse the already
computed pair, or compute it from the current transaction. -/
def pfOr (env : Env) (tx : BtcTx) (pf : Option (List Nat × List Nat)) :
    List Nat × List Nat :=
  match pf with
  | some p => p
  | none => preimage env tx

/-- The entry's sighash type after the SIGHASH_ALL defaulting
(`if k.SigHash == 0 { k.SigHash = 1 }`). -/
def sigHashOf (k : BtcTxSign) : Nat :=
  if k.sigHash = 0 then 1 else k.sigHash

/-- One iteration of the signing loop for the entry `k` at input `n`:
returns the updated transaction, the updated working duplicate used for
legacy sighash serialization, and the lazily computed segwit preimage
parts. -/
def signStep (env : Env) (k : BtcTxSign) (n : Nat) (tx wtx : BtcTx)
    (pf : Option (List Nat × List Nat)) :
    Except String (BtcTx × BtcTx × Option (List Nat × List Nat)) :=
  let sigH := sigHashOf k
  if k.scheme = "p2pk" then
    match scriptGen env k.pub "p2pk" with
    | .error e => .error e
    | .ok scr =>
      match k.signFn (sha256d env (exportBytes (setWorkScript wtx n scr) false ++ le32 sigH)) with
      | .error e => .error e
      | .ok sg =>
        .ok (modifyInput tx n
          (fun j => { j with script := PushBytes (sg ++ [sigH % 256]) }),
          setWorkScript wtx n scr, pf)
  else if k.scheme = "p2pkh" ∨ k.scheme = "p2pukh" then
    if sigH / 64 % 2 = 1 then
      match p2wpkhSign env tx n k sigH (pfOr env tx pf).1 (pfOr env tx pf).2 with
      | .error e => .error e
      | .ok tx' => .ok (tx', wtx, some (pfOr env tx pf))
    else
      match scriptGen env k.pub k.scheme with
      | .error e => .error e
      | .ok scr =>
        match k.signFn (sha256d env (exportBytes (setWorkScript wtx n scr) false ++ le32 sigH)) with
        | .error e => .error e
        | .ok sg =>
          match (if k.scheme = "p2pkh" then scriptGen env k.pub "pubkey:comp"
                 else scriptGen env k.pub "pubkey:uncomp") with
          | .error e => .error e
          | .ok pubKey =>
            .ok (modifyInput tx n
              (fun j =>
                { j with script := PushBytes (sg ++ [sigH % 256]) ++ PushBytes pubKey }),
              setWorkScript wtx n scr, pf)
  else if k.scheme = "p2wpkh" ∨ k.scheme = "p2sh:p2wpkh" then
    match p2wpkhSign env tx n k sigH (pfOr env tx pf).1 (pfOr env tx pf).2 with
    | .error e => .error e
    | .ok tx' => .ok (tx', wtx, some (pfOr env tx pf))
  else .error ("unsupported sign scheme: " ++ k.scheme)

/-- The signing loop of `BtcTx.Sign`: one `signStep` per entry, threading
the transaction, the working duplicate and the lazy preimage parts. -/
def signLoop (env : Env) :
    List BtcTxSign → Nat → BtcTx → BtcTx → Option (List Nat × List Nat) →
      Except String BtcTx
  | [], _, tx, _, _ => .ok tx
  | k :: ks, n, tx, wtx, pf =>
    match signStep env k n tx wtx pf with
    | .error e => .error e
    | .ok (tx', wtx', pf') => signLoop env ks (n + 1) tx' wtx' pf'

/-- `BtcTx.Sign`: all-or-nothing per-input signing; the key list must
match the inputs one-to-one. -/
def Sign (env : Env) (tx : BtcTx) (keys : List BtcTxSign) : Except String BtcTx :=
  if tx.inputs.length = 0 ∨ tx.inputs.length ≠ keys.length then
    .error "Sign requires as many keys as there are inputs"
  else signLoop env keys 0 tx tx none

/-! ## Transaction decoding (`BtcTx.ReadFrom`) -/

/-- Read `k` bytes (`io.ReadFull`); `none` is the read-past-end error. -/
def readN (k : Nat) (buf : List Nat) : Option (List Nat × List Nat) :=
  if buf.length < k then none else some (buf.take k, buf.drop k)

/-- Read a little-endian uint32. -/
def read4le (buf : List Nat) : Option (Nat × List Nat) :=
  match buf with
  | b0 :: b1 :: b2 :: b3 :: r =>
    some (b0 + 256 * b1 + 2 ^ 16 * b2 + 2 ^ 24 * b3, r)
  | _ => none

/-- Read a little-endian uint64. -/
def read8le (buf : List Nat) : Option (Nat × List Nat) :=
  match buf with
  | b0 :: b1 :: b2 :: b3 :: b4 :: b5 :: b6 :: b7 :: r =>
    some (b0 + 256 * b1 + 2 ^ 16 * b2 + 2 ^ 24 * b3 + 2 ^ 32 * b4
      + 2 ^ 40 * b5 + 2 ^ 48 * b6 + 2 ^ 56 * b7, r)
  | _ => none

/-- `readHelper.readVarBuf`: varint length then that many bytes; a zero
length yields the nil buffer and lengths above 100000 are rejected. -/
def readVarBuf (buf : List Nat) : Except String (List Nat × List Nat) :=
  match btcVarIntRead buf with
  | none => .error "eof"
  | some (ln, r) =>
    if ln = 0 then .ok ([], r)
    else if ln > 100000 then .error "error: buffer larger than maximum allowed length"
    else
      match readN ln r with
      | none => .error "eof"
      | some (b, r') => .ok (b, r')

/-- `BtcTxInput.ReadFrom`: txid (reversed into display order), vout,
varint-prefixed script, sequence. -/
def parseInput (buf : List Nat) : Except String (BtcTxInput × List Nat) :=
  match readN 32 buf with
  | none => .error "eof"
  | some (txidW, r1) =>
    match read4le r1 with
    | none => .error "eof"
    | some (vout, r2) =>
      match readVarBuf r2 with
      | .error e => .error e
      | .ok (scr, r3) =>
        match read4le r3 with
        | none => .error "eof"
        | some (seq, r4) => .ok (⟨txidW.reverse, vout, scr, seq, []⟩, r4)

/-- Parse `n` consecutive inputs. -/
def parseInputs : Nat → List Nat → Except String (List BtcTxInput × List Nat)
  | 0, buf => .ok ([], buf)
  | n + 1, buf =>
    match parseInput buf with
    | .error e => .error e
    | .ok (i, r) =>
      match parseInputs n r with
      | .error e => .error e
      | .ok (is, r') => .ok (i :: is, r')

/-- `BtcTxOutput.ReadFrom`: amount then varint-prefixed script. -/
def parseOutput (buf : List Nat) : Except String (BtcTxOutput × List Nat) :=
  match read8le buf with
  | none => .error "eof"
  | some (amount, r1) =>
    match readVarBuf r1 with
    | .error e => .error e
    | .ok (scr, r2) => .ok (⟨amount, scr⟩, r2)

/-- Parse `n` consecutive outputs. -/
def parseOutputs : Nat → List Nat → Except String (List BtcTxOutput × List Nat)
  | 0, buf => .ok ([], buf)
  | n + 1, buf =>
    match parseOutput buf with
    | .error e => .error e
    | .ok (o, r) =>
      match parseOutputs n r with
      | .error e => .error e
      | .ok (os, r') => .ok (o :: os, r')

/-- Parse `n` witness items, each varint-length-prefixed. -/
def parseWitItems : Nat → List Nat → Except String (List (List Nat) × List Nat)
  | 0, buf => .ok ([], buf)
  | n + 1, buf =>
    match readVarBuf buf with
    | .error e => .error e
    | .ok (b, r) =>
      match parseWitItems n r with
      | .error e => .error e
      | .ok (bs, r') => .ok (b :: bs, r')

/-- Parse the witness section: one varint item count and its items for
each input, in input order. -/
def parseWitSection : List BtcTxInput → List Nat →
    Except String (List BtcTxInput × List Nat)
  | [], buf => .ok ([], buf)
  | i :: is, buf =>
    match btcVarIntRead buf with
    | none => .error "eof"
    | some (cnt, r) =>
      match parseWitItems cnt r with
      | .error e => .error e
      | .ok (ws, r') =>
        match parseWitSection is r' with
        | .error e => .error e
        | .ok (is', r'') => .ok ({ i with witnesses := ws } :: is', r'')

/-- `BtcTx.ReadFrom` over a byte list: version, input count (a zero count
signals the witness format: consume the flag byte and re-read the true
count), the bounded input and output sections, the witness section when
marked, then the locktime. The embedding reports the first error instead
of mirroring the source's sticky `readHelper.Err` no-op reads; the
error/success outcome and the parsed value coincide. -/
def parseTx (buf : List Nat) : Except String (BtcTx × List Nat) :=
  match read4le buf with
  | none => .error "eof"
  | some (version, b1) =>
    match btcVarIntRead b1 with
    | none => .error "eof"
    | some (c0, b2) =>
      let step : Bool × Option (Nat × List Nat) :=
        if c0 = 0 then
          (true, match b2 with
            | [] => none
            | _ :: b3 => btcVarIntRead b3)
        else (false, some (c0, b2))
      match step with
      | (_, none) => .error "eof"
      | (segwit, some (inCnt, b3)) =>
        if inCnt > 10000 then .error "invalid transaction: too many inputs"
        else
          match parseInputs inCnt b3 with
          | .error e => .error e
          | .ok (ins, b4) =>
            match btcVarIntRead b4 with
            | none => .error "eof"
            | some (outCnt, b5) =>
              if outCnt > 65536 then .error "invalid transaction: too many inputs"
              else
                match parseOutputs outCnt b5 with
                | .error e => .error e
                | .ok (outs, b6) =>
                  match (if segwit then parseWitSection ins b6 else .ok (ins, b6)) with
                  | .error e => .error e
                  | .ok (ins', b7) =>
                    match read4le b7 with
                    | none => .error "eof"
                    | some (locktime, b8) =>
                      .ok (⟨version, ins', outs, locktime⟩, b8)

/-! ## Concrete fixtures for witnesses and counterexamples -/

/-- A computable stand-in for the abstract hash primitives, used only to
instantiate witness and counterexample statements: it records the input's
length and byte sum, which keeps the finitely many hash values a witness
compares pairwise distinct. -/
def dHash : HashFn → List Nat → List Nat
  | .hsha256, v => v.length % 256 :: (v.foldl (· + ·) 0) % 256 :: List.replicate 30 0
  | .hripemd160, v => v.length % 256 :: (v.foldl (· + ·) 0) % 256 :: List.replicate 18 0
  | .hether, _ => List.replicate 20 0

/-- A computable environment for witnesses and counterexamples. -/
def dEnv : Env :=
  { hashf := dHash
    b58enc := fun v => toString v.length
    cashAddrEnc := fun _ v => .ok (toString v.length)
    segwitAddrEnc := fun h _ v => .ok (h ++ toString v.length)
    ethChecksum := fun v => toString v.length }

/-- A concrete public key offering the standard secp256k1 serialization
lengths (33-byte compressed, 65-byte uncompressed). -/
def dPk : PubKey :=
  { comp := some (List.replicate 33 2), uncomp := some (List.replicate 65 4) }

/-! ## Helper lemmas -/

/-! ## Helper lemmas -/

/-- A one-input transaction for exercising `Sign`. -/
def txC1 : BtcTx :=
  ⟨1, [⟨List.replicate 32 0, 0, [], 0xffffffff, []⟩], [], 0⟩

/-- A signing entry requesting the `p2wsh:p2pkh` scheme. -/
def keyC1 : BtcTxSign :=
  ⟨dPk, fun _ => .ok [1], "p2wsh:p2pkh", 600000000, 0⟩

/-- A transaction with one witness item of one byte. -/
def txC4 : BtcTx :=
  ⟨0, [⟨List.replicate 32 0, 0, [], 0, [[0]]⟩], [], 0⟩

/-- The same transaction with no witness items. -/
def txC4b : BtcTx :=
  ⟨0, [⟨List.replicate 32 0, 0, [], 0, []⟩], [], 0⟩

/-- The result bytes of a concrete `p2sh:p2pkh` generation. -/
def c7bytes : List Nat :=
  match (generate genFuel dEnv (newScript dPk) "p2sh:p2pkh").1 with
  | .ok v => v
  | .error _ => []

/-- The `Script` state after that generation. -/
def c7state : ScriptS :=
  (generate genFuel dEnv (newScript dPk) "p2sh:p2pkh").2

/-- The signing-immutable part of an input: txid, vout, sequence. -/
def inputSkel (i : BtcTxInput) : List Nat × Nat × Nat :=
  (i.txid, i.vout, i.sequence)

/-- The signing-immutable part of a transaction: version, locktime,
outputs, and every input's skeleton. -/
def txSkel (tx : BtcTx) : Nat × Nat × List BtcTxOutput × List (List Nat × Nat × Nat) :=
  (tx.version, tx.locktime, tx.outputs, tx.inputs.map inputSkel)

/-- A one-input transaction with an output, for a concrete signing run. -/
def txC9 : BtcTx :=
  ⟨1, [⟨List.replicate 32 7, 1, [], 0xffffffff, []⟩], [⟨5000, [0x51]⟩], 9⟩

/-- A `p2pk` signing entry over the concrete key. -/
def keyC9 : BtcTxSign :=
  ⟨dPk, fun _ => .ok [0x30, 0x45], "p2pk", 0, 0⟩

/-- The transaction produced by that signing run. -/
def txC9res : BtcTx :=
  match Sign dEnv txC9 [keyC9] with
  | .ok t => t
  | .error _ => txC9

/-- A small well-formed transaction for the C8 witness. -/
def txC8 : BtcTx :=
  ⟨1, [⟨List.replicate 32 3, 0, [0x51], 0xfffffffe, []⟩], [⟨1000, [0x6a]⟩], 0⟩

/-- Closed form of the generated `p2pk` script. -/
def scriptP2pk (c : List Nat) : List Nat := PushBytes c ++ [0xac]

/-- Closed form of the generated `p2puk` script. -/
def scriptP2puk (u : List Nat) : List Nat := PushBytes u ++ [0xac]

/-- Closed form of the generated `p2pkh` script. -/
def scriptP2pkh (env : Env) (c : List Nat) : List Nat :=
  [0x76, 0xa9] ++ PushBytes (hash160 env c) ++ [0x88, 0xac]

/-- Closed form of the generated `p2pukh` script. -/
def scriptP2pukh (env : Env) (u : List Nat) : List Nat :=
  [0x76, 0xa9] ++ PushBytes (hash160 env u) ++ [0x88, 0xac]

/-- Closed form of the generated `p2wpkh` script. -/
def scriptP2wpkhC (env : Env) (c : List Nat) : List Nat :=
  [0] ++ PushBytes (hash160 env c)

/-- Closed form of a generated `p2sh:`-wrapped script. -/
def scriptP2shOf (env : Env) (inner : List Nat) : List Nat :=
  [0xa9] ++ PushBytes (hash160 env inner) ++ [0x87]

/-- Closed form of a generated `p2wsh:`-wrapped script. -/
def scriptP2wshOf (env : Env) (inner : List Nat) : List Nat :=
  [0] ++ PushBytes (env.hashf .hsha256 inner)

theorem lem_getLastD_append_one (h : List Nat) (a d : Nat) :
    (h ++ [a]).getLastD d = a := by
  induction h generalizing d with
  | nil => rfl
  | cons x t ih => rw [List.cons_append, List.getLastD_cons, ih]

theorem lem_getLastD_append_two (h : List Nat) (a b d : Nat) :
    (h ++ [a, b]).getLastD d = b := by
  have he : h ++ [a, b] = (h ++ [a]) ++ [b] := by simp
  rw [he, lem_getLastD_append_one]

theorem lem_varint_read_encode (v : Nat) (hv : v < 2 ^ 64) (r : List Nat) :
    btcVarIntRead (btcVarIntBytes v ++ r) = some (v, r) := by
  unfold btcVarIntBytes
  split_ifs with h1 h2 h3
  · simp [btcVarIntRead, h1]
  · simp only [le16, List.cons_append, btcVarIntRead]
    norm_num
    omega
  · simp only [le32, List.cons_append, btcVarIntRead]
    norm_num
    omega
  · simp only [le64, List.cons_append, btcVarIntRead]
    norm_num
    omega

theorem lem_varint_bytes_length (v : Nat) :
    (btcVarIntBytes v).length = btcVarIntLen v := by
  unfold btcVarIntBytes btcVarIntLen
  split_ifs <;> simp [le16, le32, le64]

theorem lem_push_parse_push (v : List Nat) (hlen : v.length < 2 ^ 32) :
    ParsePushBytes (PushBytes v) = some (some v, (PushBytes v).length) := by
  unfold PushBytes
  split_ifs with h1 h2 h3
  · simp [ParsePushBytes, h1, List.take_length]
  · simp only [ParsePushBytes]
    norm_num [h1, List.take_length]
  · simp only [le16, List.cons_append, List.nil_append, ParsePushBytes]
    norm_num
    have hl : v.length % 256 + 256 * (v.length / 256 % 256) = v.length := by omega
    rw [hl, if_pos (le_refl _), List.take_length]
  · simp only [le32, List.cons_append, List.nil_append, ParsePushBytes]
    norm_num
    have hl : v.length % 256 + 256 * (v.length / 256 % 256)
        + 65536 * (v.length / 65536 % 256) + 16777216 * (v.length / 16777216 % 256)
        = v.length := by omega
    rw [hl, if_pos (le_refl _), List.take_length]

theorem lem_push_trunc_at_2_pow_32 (w : List Nat) (hw : w.length = 2 ^ 32) :
    ParsePushBytes (PushBytes w) = some (some [], 5) := by
  unfold PushBytes
  rw [if_neg (by omega), if_neg (by omega), if_neg (by omega)]
  have h32 : le32 w.length = [0, 0, 0, 0] := by rw [hw]; norm_num [le32]
  rw [h32]
  simp only [List.cons_append, List.nil_append, ParsePushBytes]
  norm_num

/-! ## Claim C2 -/

/-- C2: the claim that `ParsePushBytes` is total on arbitrary byte
strings and returns `(nil, 0)` on a truncated OP_PUSHDATA1/2/4 length is
refuted by the code: on inputs consisting of the 0x4c/0x4d/0x4e opcode
with its length bytes missing, the source indexes past the end of the
slice and panics (`none` in the embedding) instead of returning
`(nil, 0)` (`some (none, 0)`). -/
theorem parsePushBytes_truncated_length_panics :
    ParsePushBytes [0x4c] = none
    ∧ ParsePushBytes [0x4d, 0] = none
    ∧ ParsePushBytes [0x4e, 0, 0, 0] = none
    ∧ ParsePushBytes [0x4c] ≠ some (none, 0) := by
  decide

/-! ## Claim C5 -/

/-- C5 (counterexample): the push-data round-trip fails at data of
length `2 ^ 32` — the OP_PUSHDATA4 length is truncated through Go's
`uint32` cast to 0, so parsing returns the empty push with 5 consumed
bytes instead of the data. -/
theorem pushBytes_roundtrip_fails_at_2_pow_32 :
    ParsePushBytes (PushBytes (List.replicate (2 ^ 32) 0))
        = some (some [], 5)
    ∧ ParsePushBytes (PushBytes (List.replicate (2 ^ 32) 0))
        ≠ some (some (List.replicate (2 ^ 32) 0),
            (PushBytes (List.replicate (2 ^ 32) 0)).length) := by
  have hw : (List.replicate (2 ^ 32) (0 : Nat)).length = 2 ^ 32 :=
    List.length_replicate _ _
  have h5 := lem_push_trunc_at_2_pow_32 _ hw
  refine ⟨h5, ?_⟩
  intro hcontra
  rw [h5] at hcontra
  have hpair := Option.some.inj hcontra
  have hfst : (some ([] : List Nat)) = some (List.replicate (2 ^ 32) 0) :=
    congrArg Prod.fst hpair
  have hnil := Option.some.inj hfst
  have hl := congrArg List.length hnil
  rw [hw] at hl
  exact absurd hl (by norm_num)

/-- C5 (amended): for every byte string of length below `2 ^ 32` — the
range the OP_PUSHDATA4 length field represents exactly —
`ParsePushBytes` after `PushBytes` returns exactly the data and the
encoded length. -/
theorem pushBytes_roundtrip (v : List Nat) (hlen : v.length < 2 ^ 32) :
    ParsePushBytes (PushBytes v) = some (some v, (PushBytes v).length) :=
  lem_push_parse_push v hlen

/-- C5 witness: the round-trip at the concrete data `[1, 2, 3]`. -/
theorem pushBytes_roundtrip_witness :
    ([1, 2, 3] : List Nat).length < 2 ^ 32
    ∧ ParsePushBytes (PushBytes [1, 2, 3])
        = some (some [1, 2, 3], (PushBytes [1, 2, 3]).length) :=
  ⟨by norm_num, pushBytes_roundtrip [1, 2, 3] (by norm_num)⟩

/-! ## Claim C6 -/

/-- C6: decoding the `BtcVarInt` encoding of any 64-bit value yields the
value back (with the tail preserved); the encoder picks exactly the
claimed minimal form for each range (and `Len` matches); and the decoder
accepts all four forms unconditionally. -/
theorem btcVarInt_roundtrip_and_forms (v : Nat) (hv : v < 2 ^ 64) (r : List Nat) :
    btcVarIntRead (btcVarIntBytes v ++ r) = some (v, r)
    ∧ (v ≤ 0xfc → btcVarIntBytes v = [v])
    ∧ (0xfc < v → v ≤ 0xffff → btcVarIntBytes v = 0xfd :: le16 v)
    ∧ (0xffff < v → v ≤ 0xffffffff → btcVarIntBytes v = 0xfe :: le32 v)
    ∧ (0xffffffff < v → btcVarIntBytes v = 0xff :: le64 v)
    ∧ (btcVarIntBytes v).length = btcVarIntLen v
    ∧ (∀ t, t ≤ 0xfc → btcVarIntRead (t :: r) = some (t, r))
    ∧ (∀ b0 b1, btcVarIntRead (0xfd :: b0 :: b1 :: r) = some (b0 + 256 * b1, r))
    ∧ (∀ b0 b1 b2 b3, btcVarIntRead (0xfe :: b0 :: b1 :: b2 :: b3 :: r)
        = some (b0 + 256 * b1 + 2 ^ 16 * b2 + 2 ^ 24 * b3, r))
    ∧ (∀ b0 b1 b2 b3 b4 b5 b6 b7,
        btcVarIntRead (0xff :: b0 :: b1 :: b2 :: b3 :: b4 :: b5 :: b6 :: b7 :: r)
        = some (b0 + 256 * b1 + 2 ^ 16 * b2 + 2 ^ 24 * b3 + 2 ^ 32 * b4
            + 2 ^ 40 * b5 + 2 ^ 48 * b6 + 2 ^ 56 * b7, r)) := by
  refine ⟨lem_varint_read_encode v hv r, ?_, ?_, ?_, ?_,
    lem_varint_bytes_length v, ?_, ?_, ?_, ?_⟩
  · intro h; simp [btcVarIntBytes, h]
  · intro h1 h2; rw [btcVarIntBytes, if_neg (by omega), if_pos h2]
  · intro h1 h2
    rw [btcVarIntBytes, if_neg (by omega), if_neg (by omega), if_pos h2]
  · intro h1
    rw [btcVarIntBytes, if_neg (by omega), if_neg (by omega), if_neg (by omega)]
  · intro t ht; simp [btcVarIntRead, ht]
  · intro b0 b1; simp [btcVarIntRead]
  · intro b0 b1 b2 b3; simp [btcVarIntRead]
  · intro b0 b1 b2 b3 b4 b5 b6 b7; simp [btcVarIntRead]

/-- C6 witness: the conjunction at `v = 0xfd` with an empty tail. -/
theorem btcVarInt_roundtrip_witness :
    (0xfd : Nat) < 2 ^ 64
    ∧ btcVarIntRead (btcVarIntBytes 0xfd ++ []) = some (0xfd, []) :=
  ⟨by norm_num, (btcVarInt_roundtrip_and_forms 0xfd (by norm_num) []).1⟩

/-! ## Claim C1 -/

/-- C1: the spec's table says signing an input under a `p2wsh:<inner>`
scheme succeeds with an empty input script and witness
[signature, pubkey?, witnessScript]; the code's `Sign` has no `p2wsh`
branch at all, so the very conditions of the claim (a transaction with
one input, a 1:1 signing list, the scheme `p2wsh:p2pkh` whose inner
scheme is registered — indeed `p2wsh:p2pkh` itself is a registered
format) lead to the `unsupported sign scheme` error. The repository's
own tests require this call to succeed, so the code contradicts them. -/
theorem sign_p2wsh_scheme_errors :
    Sign dEnv txC1 [keyC1] = .error "unsupported sign scheme: p2wsh:p2pkh"
    ∧ (findFormat "p2wsh:p2pkh").isSome = true
    ∧ (findFormat "p2pkh").isSome = true
    ∧ txC1.inputs.length = 1 :=
  ⟨rfl, rfl, rfl, rfl⟩

theorem lem_input_bytes_length (i : BtcTxInput) (h32 : i.txid.length = 32) :
    (inputBytes i).length = inputComputeSize i := by
  simp [inputBytes, inputComputeSize, le32, h32, lem_varint_bytes_length]
  omega

theorem lem_output_bytes_length (o : BtcTxOutput) :
    (outputBytes o).length = outputComputeSize o := by
  simp [outputBytes, outputComputeSize, le64, lem_varint_bytes_length]
  omega

theorem lem_witness_bytes_length (i : BtcTxInput) :
    (witnessBytes i).length = inputWitnessSize i := by
  unfold witnessBytes inputWitnessSize
  simp [lem_varint_bytes_length]
  induction i.witnesses with
  | nil => simp
  | cons b t ih => simp [ih, lem_varint_bytes_length]; omega

theorem lem_inputs_len_sum (l : List BtcTxInput)
    (h32 : ∀ i ∈ l, i.txid.length = 32) :
    (l.map (List.length ∘ inputBytes)).sum = (l.map inputComputeSize).sum := by
  induction l with
  | nil => simp
  | cons i t ih =>
    simp only [List.map_cons, List.sum_cons, Function.comp_apply]
    rw [lem_input_bytes_length i (h32 i (by simp)),
      ih (fun j hj => h32 j (by simp [hj]))]

theorem lem_outputs_len_sum (l : List BtcTxOutput) :
    (l.map (List.length ∘ outputBytes)).sum = (l.map outputComputeSize).sum := by
  induction l with
  | nil => simp
  | cons o t ih =>
    simp only [List.map_cons, List.sum_cons, Function.comp_apply]
    rw [lem_output_bytes_length o, ih]

theorem lem_wit_len_sum (l : List BtcTxInput) :
    (l.map (List.length ∘ witnessBytes)).sum = (l.map inputWitnessSize).sum := by
  induction l with
  | nil => simp
  | cons i t ih =>
    simp only [List.map_cons, List.sum_cons, Function.comp_apply]
    rw [lem_witness_bytes_length i, ih]

theorem lem_export_length (tx : BtcTx) (h32 : ∀ i ∈ tx.inputs, i.txid.length = 32) :
    (exportBytes tx false).length
      = 4 + btcVarIntLen tx.inputs.length + btcVarIntLen tx.outputs.length + 4
        + (tx.inputs.map inputComputeSize).sum + (tx.outputs.map outputComputeSize).sum
    ∧ (exportBytes tx true).length
      = (exportBytes tx false).length + 2 + (tx.inputs.map inputWitnessSize).sum := by
  constructor
  · simp only [exportBytes, Bool.false_eq_true, reduceIte, List.length_append,
      List.length_flatten, List.map_map, le32, List.length_cons, List.length_nil,
      lem_varint_bytes_length, lem_inputs_len_sum tx.inputs h32, lem_outputs_len_sum]
    omega
  · simp only [exportBytes, Bool.false_eq_true, reduceIte, List.length_append,
      List.length_flatten, List.map_map, le32, List.length_cons, List.length_nil,
      lem_varint_bytes_length, lem_inputs_len_sum tx.inputs h32, lem_outputs_len_sum,
      lem_wit_len_sum]
    omega

/-! ## Claim C4 -/

/-- C4 (counterexample): on a transaction whose witness section is 3
bytes, `ComputeSize` returns 53 — the witness-free size 51 plus
`ceil((3+2)/4) = 2` — not the claimed 51 + 2 + ceil(3/4) = 54: the
2 marker/flag bytes are folded into the quarter-weight division, not
added at full weight. And on a witness-free transaction it returns 52,
not the witness-free serialized size 51: the per-input witness-count
varint makes the code's witness byte count one per input even when no
input carries items, so the witness branch is taken by every
transaction that has an input. -/
theorem computeSize_counterexample :
    computeSize txC4 = 53
    ∧ (exportBytes txC4 false).length = 51
    ∧ (txC4.inputs.map inputWitnessSize).sum = 3
    ∧ computeSize txC4
      ≠ (exportBytes txC4 false).length + 2
        + (((txC4.inputs.map inputWitnessSize).sum + 3) / 4)
    ∧ computeSize txC4b = 52
    ∧ (exportBytes txC4b false).length = 51
    ∧ computeSize txC4b ≠ (exportBytes txC4b false).length := by
  refine ⟨rfl, rfl, rfl, ?_, rfl, rfl, ?_⟩ <;> decide

/-- C4 (amended): `ComputeSize` equals the witness-free serialized size
plus `ceil((w + 2) / 4)`, where `w` is the byte length of the serialized
witness section (per-input witness-count varints plus length-prefixed
items — one byte per input even when it has no items, so `w = 0` only
for a transaction with no inputs, and only then is the witness-free
size returned exactly). -/
theorem computeSize_spec (tx : BtcTx) (h32 : ∀ i ∈ tx.inputs, i.txid.length = 32) :
    (exportBytes tx true).length
      = (exportBytes tx false).length + 2 + (tx.inputs.map inputWitnessSize).sum
    ∧ ((tx.inputs.map inputWitnessSize).sum = 0 → tx.inputs = []
        ∧ computeSize tx = (exportBytes tx false).length)
    ∧ ((tx.inputs.map inputWitnessSize).sum ≠ 0 →
        computeSize tx = (exportBytes tx false).length
          + ((tx.inputs.map inputWitnessSize).sum + 2 + 3) / 4) := by
  obtain ⟨hbase, hwit⟩ := lem_export_length tx h32
  refine ⟨hwit, ?_, ?_⟩
  · intro hw0
    have hnil : tx.inputs = [] := by
      cases hin : tx.inputs with
      | nil => rfl
      | cons i t =>
        exfalso
        rw [hin] at hw0
        simp only [List.map_cons, List.sum_cons] at hw0
        have h1 : 1 ≤ inputWitnessSize i := by
          unfold inputWitnessSize btcVarIntLen
          split_ifs <;> omega
        omega
    refine ⟨hnil, ?_⟩
    unfold computeSize
    dsimp only
    rw [hw0, if_pos rfl, hbase]
  · intro hw
    unfold computeSize
    dsimp only
    rw [if_neg hw, hbase]
    split_ifs <;> omega

/-- C4 witness: the amended statement applied to `txC4`. -/
theorem computeSize_spec_witness :
    (∀ i ∈ txC4.inputs, i.txid.length = 32)
    ∧ ((txC4.inputs.map inputWitnessSize).sum ≠ 0 →
        computeSize txC4 = (exportBytes txC4 false).length
          + ((txC4.inputs.map inputWitnessSize).sum + 2 + 3) / 4) :=
  ⟨by decide, (computeSize_spec txC4 (by decide)).2.2⟩

theorem lem_generate_caches (fuel : Nat) (env : Env) (s : ScriptS) (name : String)
    (r : List Nat) (s₁ : ScriptS)
    (h : generate fuel env s name = (.ok r, s₁)) :
    lookupCache s₁.cache name = some r := by
  cases fuel with
  | zero =>
    exfalso
    simp [generate] at h
  | succ m =>
    unfold generate at h
    cases hc : lookupCache s.cache name with
    | some r' =>
      rw [hc] at h
      obtain ⟨h1, h2⟩ := Prod.mk.inj h
      obtain rfl := Except.ok.inj h1
      subst h2
      exact hc
    | none =>
      rw [hc] at h
      split_ifs at h with hpk
      · cases hg : getPubKeyBytes s.pk name with
        | error e => rw [hg] at h; exact absurd (Prod.mk.inj h).1 (by simp)
        | ok res =>
          rw [hg] at h
          obtain ⟨h1, h2⟩ := Prod.mk.inj h
          obtain rfl := Except.ok.inj h1
          rw [← h2]
          simp [lookupCache]
      · cases hf : findFormat name with
        | none =>
          rw [hf] at h
          dsimp only at h
          exact absurd (Prod.mk.inj h).1 (by simp)
        | some f =>
          rw [hf] at h
          dsimp only at h
          cases hg : genPieces env (fun s' n => generate m env s' n) s f with
          | mk res s' =>
            rw [hg] at h
            cases res with
            | error e =>
              dsimp only at h
              exact absurd (Prod.mk.inj h).1 (by simp)
            | ok v =>
              dsimp only at h
              obtain ⟨h1, h2⟩ := Prod.mk.inj h
              obtain rfl := Except.ok.inj h1
              rw [← h2]
              simp [lookupCache]

/-! ## Claim C7 -/

/-- C7: `Script.Generate` is deterministic — once a name has generated
successfully, generating it again from the resulting `Script` state
returns the identical bytes (and leaves the state unchanged, via the
cache), and two `Script` instances built from the same public key are
the same state, so they return identical results for every name. -/
theorem script_generate_deterministic (env : Env) (pk : PubKey) (name : String)
    (fuel fuel₂ : Nat) (r : List Nat) (s₁ : ScriptS)
    (h : generate fuel env (newScript pk) name = (.ok r, s₁)) :
    generate (fuel₂ + 1) env s₁ name = (.ok r, s₁)
    ∧ ∀ s' s'' : ScriptS, s' = newScript pk → s'' = newScript pk →
        generate fuel env s' name = generate fuel env s'' name := by
  constructor
  · have hc := lem_generate_caches fuel env _ name r s₁ h
    unfold generate
    rw [hc]
  · rintro s' s'' rfl rfl
    rfl

/-- C7 witness: a concrete successful generation, regenerated from the
resulting state. -/
theorem script_generate_deterministic_witness :
    generate genFuel dEnv (newScript dPk) "p2sh:p2pkh" = (.ok c7bytes, c7state)
    ∧ generate (genFuel + 1) dEnv c7state "p2sh:p2pkh" = (.ok c7bytes, c7state) :=
  ⟨rfl,
   (script_generate_deterministic dEnv dPk "p2sh:p2pkh" genFuel genFuel
     c7bytes c7state rfl).1⟩

theorem lem_set_map_skel (l : List BtcTxInput) (n : Nat) (f : BtcTxInput → BtcTxInput)
    (hf : ∀ i, inputSkel (f i) = inputSkel i) :
    (l.set n (f (l.getD n ⟨[], 0, [], 0, []⟩))).map inputSkel = l.map inputSkel := by
  induction l generalizing n with
  | nil => simp
  | cons a t ih =>
    cases n with
    | zero =>
      simp only [List.getD_cons_zero, List.set_cons_zero, List.map_cons]
      rw [hf a]
    | succ m =>
      simp only [List.getD_cons_succ, List.set_cons_succ, List.map_cons]
      rw [ih m]

theorem lem_modifyInput_skel (tx : BtcTx) (n : Nat) (f : BtcTxInput → BtcTxInput)
    (hf : ∀ i, inputSkel (f i) = inputSkel i) :
    txSkel (modifyInput tx n f) = txSkel tx := by
  unfold txSkel modifyInput
  dsimp only
  rw [lem_set_map_skel tx.inputs n f hf]

theorem lem_p2wpkhUpdate_skel (env : Env) (tx : BtcTx) (n : Nat) (scheme : String)
    (sigH : Nat) (pubKey sg0 : List Nat) :
    txSkel (p2wpkhUpdate env tx n scheme sigH pubKey sg0) = txSkel tx := by
  unfold p2wpkhUpdate
  dsimp only
  split_ifs <;>
    first
      | exact lem_modifyInput_skel tx n _ (fun i => rfl)
      | rfl

theorem lem_p2wpkhSign_frame (env : Env) (tx : BtcTx) (n : Nat) (k : BtcTxSign)
    (sigH : Nat) (a b : List Nat) (tx' : BtcTx)
    (h : p2wpkhSign env tx n k sigH a b = .ok tx') :
    txSkel tx' = txSkel tx := by
  unfold p2wpkhSign at h
  split at h
  · exact Except.noConfusion h
  · split at h
    · exact Except.noConfusion h
    · obtain rfl := Except.ok.inj h
      exact lem_p2wpkhUpdate_skel env tx n k.scheme sigH _ _

theorem lem_signStep_frame (env : Env) (k : BtcTxSign) (n : Nat) (tx wtx : BtcTx)
    (pf : Option (List Nat × List Nat))
    (out : BtcTx × BtcTx × Option (List Nat × List Nat))
    (h : signStep env k n tx wtx pf = .ok out) :
    txSkel out.1 = txSkel tx := by
  unfold signStep at h
  dsimp only at h
  split_ifs at h <;> repeat' split at h
  all_goals
    first
      | exact Except.noConfusion h
      | { obtain rfl := Except.ok.inj h
          first
            | exact lem_modifyInput_skel tx n _ (fun i => rfl)
            | exact lem_p2wpkhSign_frame env tx n k (sigHashOf k) _ _ _ (by assumption) }

theorem lem_signLoop_frame (env : Env) (ks : List BtcTxSign) :
    ∀ (n : Nat) (tx wtx : BtcTx) (pf : Option (List Nat × List Nat)) (tx' : BtcTx),
      signLoop env ks n tx wtx pf = .ok tx' → txSkel tx' = txSkel tx := by
  induction ks with
  | nil =>
    intro n tx wtx pf tx' h
    obtain rfl := Except.ok.inj h
    rfl
  | cons k t ih =>
    intro n tx wtx pf tx' h
    unfold signLoop at h
    split at h
    · exact Except.noConfusion h
    · rename_i out hstep
      rw [ih _ _ _ _ _ h, lem_signStep_frame env k n tx wtx pf _ hstep]

/-! ## Claim C9 -/

/-- C9: a successful `Sign` changes only the inputs' scripts and witness
stacks — the version, locktime, every output, and every input's txid,
vout and sequence (and the input count) are unchanged. -/
theorem sign_frame (env : Env) (tx : BtcTx) (keys : List BtcTxSign) (tx' : BtcTx)
    (h : Sign env tx keys = .ok tx') :
    tx'.version = tx.version
    ∧ tx'.locktime = tx.locktime
    ∧ tx'.outputs = tx.outputs
    ∧ tx'.inputs.map inputSkel = tx.inputs.map inputSkel
    ∧ tx'.inputs.length = tx.inputs.length := by
  unfold Sign at h
  split_ifs at h with hc
  have hskel := lem_signLoop_frame env keys 0 tx tx none tx' h
  unfold txSkel at hskel
  simp only [Prod.mk.injEq] at hskel
  obtain ⟨hv, hl, ho, hi⟩ := hskel
  refine ⟨hv, hl, ho, hi, ?_⟩
  simpa using congrArg List.length hi

/-- C9 witness: a concrete successful `Sign` preserving the frame. -/
theorem sign_frame_witness :
    Sign dEnv txC9 [keyC9] = .ok txC9res
    ∧ txC9res.version = txC9.version
    ∧ txC9res.locktime = txC9.locktime
    ∧ txC9res.outputs = txC9.outputs
    ∧ txC9res.inputs.map inputSkel = txC9.inputs.map inputSkel
    ∧ txC9res.inputs.length = txC9.inputs.length :=
  ⟨rfl, sign_frame dEnv txC9 [keyC9] txC9res rfl⟩

theorem lem_read4le (n : Nat) (hn : n < 2 ^ 32) (r : List Nat) :
    read4le (le32 n ++ r) = some (n, r) := by
  simp only [le32, List.cons_append, List.nil_append, read4le]
  norm_num
  omega

theorem lem_read8le (n : Nat) (hn : n < 2 ^ 64) (r : List Nat) :
    read8le (le64 n ++ r) = some (n, r) := by
  simp only [le64, List.cons_append, List.nil_append, read8le]
  norm_num
  omega

theorem lem_readN (a r : List Nat) :
    readN a.length (a ++ r) = some (a, r) := by
  unfold readN
  rw [if_neg (by simp)]
  rw [List.take_left, List.drop_left]

theorem lem_readVarBuf (s r : List Nat) (hs : s.length ≤ 100000) :
    readVarBuf (btcVarIntBytes s.length ++ (s ++ r)) = .ok (s, r) := by
  unfold readVarBuf
  rw [lem_varint_read_encode s.length (by omega) (s ++ r)]
  dsimp only
  by_cases h0 : s.length = 0
  · obtain rfl := List.eq_nil_of_length_eq_zero h0
    simp
  · rw [if_neg h0, if_neg (by omega), lem_readN s r]

theorem lem_parseInput (i : BtcTxInput) (r : List Nat)
    (h32 : i.txid.length = 32) (hscr : i.script.length ≤ 100000)
    (hv : i.vout < 2 ^ 32) (hsq : i.sequence < 2 ^ 32) (hw : i.witnesses = []) :
    parseInput (inputBytes i ++ r) = .ok (i, r) := by
  obtain ⟨txid, vout, scr, seq, wit⟩ := i
  simp only at h32 hscr hv hsq hw
  subst hw
  unfold parseInput inputBytes
  simp only [List.append_assoc]
  have hrl : txid.reverse.length = 32 := by simp [h32]
  rw [show (32 : Nat) = txid.reverse.length from hrl.symm, lem_readN]
  dsimp only
  rw [lem_read4le vout hv]
  dsimp only
  rw [lem_readVarBuf scr _ hscr]
  dsimp only
  rw [lem_read4le seq hsq]
  simp [List.reverse_reverse]

theorem lem_parseInputs (l : List BtcTxInput) (r : List Nat)
    (hall : ∀ i ∈ l, i.txid.length = 32 ∧ i.script.length ≤ 100000
      ∧ i.vout < 2 ^ 32 ∧ i.sequence < 2 ^ 32 ∧ i.witnesses = []) :
    parseInputs l.length ((l.map inputBytes).flatten ++ r) = .ok (l, r) := by
  induction l with
  | nil => simp [parseInputs]
  | cons i t ih =>
    obtain ⟨h32, hscr, hv, hsq, hw⟩ := hall i (by simp)
    simp only [List.length_cons, List.map_cons, List.flatten_cons, List.append_assoc]
    unfold parseInputs
    rw [lem_parseInput i _ h32 hscr hv hsq hw]
    dsimp only
    rw [ih (fun j hj => hall j (by simp [hj]))]

theorem lem_parseOutput (o : BtcTxOutput) (r : List Nat)
    (ha : o.amount < 2 ^ 64) (hscr : o.script.length ≤ 100000) :
    parseOutput (outputBytes o ++ r) = .ok (o, r) := by
  obtain ⟨amount, scr⟩ := o
  simp only at ha hscr
  unfold parseOutput outputBytes
  simp only [List.append_assoc]
  rw [lem_read8le amount ha]
  dsimp only
  rw [lem_readVarBuf scr _ hscr]

theorem lem_parseOutputs (l : List BtcTxOutput) (r : List Nat)
    (hall : ∀ o ∈ l, o.amount < 2 ^ 64 ∧ o.script.length ≤ 100000) :
    parseOutputs l.length ((l.map outputBytes).flatten ++ r) = .ok (l, r) := by
  induction l with
  | nil => simp [parseOutputs]
  | cons o t ih =>
    obtain ⟨ha, hscr⟩ := hall o (by simp)
    simp only [List.length_cons, List.map_cons, List.flatten_cons, List.append_assoc]
    unfold parseOutputs
    rw [lem_parseOutput o _ ha hscr]
    dsimp only
    rw [ih (fun p hp => hall p (by simp [hp]))]

theorem lem_parseTx_roundtrip (tx : BtcTx) (r : List Nat)
    (hin1 : tx.inputs.length ≠ 0) (hin : tx.inputs.length ≤ 10000)
    (hout : tx.outputs.length ≤ 65536)
    (hver : tx.version < 2 ^ 32) (hlock : tx.locktime < 2 ^ 32)
    (halli : ∀ i ∈ tx.inputs, i.txid.length = 32 ∧ i.script.length ≤ 100000
      ∧ i.vout < 2 ^ 32 ∧ i.sequence < 2 ^ 32 ∧ i.witnesses = [])
    (hallo : ∀ o ∈ tx.outputs, o.amount < 2 ^ 64 ∧ o.script.length ≤ 100000) :
    parseTx (exportBytes tx false ++ r) = .ok (tx, r) := by
  obtain ⟨version, ins, outs, locktime⟩ := tx
  simp only at hin1 hin hout hver hlock halli hallo
  unfold parseTx exportBytes
  simp only [Bool.false_eq_true, reduceIte, List.nil_append, List.append_assoc]
  rw [lem_read4le version hver]
  dsimp only
  rw [lem_varint_read_encode ins.length (by omega)]
  dsimp only
  rw [if_neg hin1]
  dsimp only
  rw [if_neg (by omega)]
  rw [lem_parseInputs ins _ halli]
  dsimp only
  rw [lem_varint_read_encode outs.length (by omega)]
  dsimp only
  rw [if_neg (by omega)]
  rw [lem_parseOutputs outs _ hallo]
  dsimp only
  simp only [Bool.false_eq_true, reduceIte]
  rw [lem_read4le locktime hlock]

/-! ## Claim C8 -/

/-- C8: `BtcTx.ReadFrom` rejects any serialized transaction whose decoded
input count exceeds 10000 — in both the legacy layout and the witness
layout (zero marker + flag byte + true count) — before reading any
input; rejects any decoded output count above 65536 after the input
section; and accepts counts within the bounds: a well-formed witness-free
transaction with 1 ≤ inputs ≤ 10000 and outputs ≤ 65536 parses back
exactly. -/
theorem parseTx_count_bounds :
    (∀ b0 b1 b2 b3 n : Nat, ∀ rest : List Nat, 10000 < n → n < 2 ^ 64 →
      parseTx (b0 :: b1 :: b2 :: b3 :: (btcVarIntBytes n ++ rest))
        = .error "invalid transaction: too many inputs")
    ∧ (∀ b0 b1 b2 b3 flag n : Nat, ∀ rest : List Nat, 10000 < n → n < 2 ^ 64 →
      parseTx (b0 :: b1 :: b2 :: b3 :: 0 :: flag :: (btcVarIntBytes n ++ rest))
        = .error "invalid transaction: too many inputs")
    ∧ (∀ b0 b1 b2 b3 : Nat, ∀ l : List BtcTxInput, ∀ m : Nat, ∀ rest : List Nat,
      l.length ≠ 0 → l.length ≤ 10000 → 65536 < m → m < 2 ^ 64 →
      (∀ i ∈ l, i.txid.length = 32 ∧ i.script.length ≤ 100000
        ∧ i.vout < 2 ^ 32 ∧ i.sequence < 2 ^ 32 ∧ i.witnesses = []) →
      parseTx (b0 :: b1 :: b2 :: b3 ::
          (btcVarIntBytes l.length ++ ((l.map inputBytes).flatten ++ (btcVarIntBytes m ++ rest))))
        = .error "invalid transaction: too many inputs")
    ∧ (∀ tx : BtcTx, ∀ r : List Nat,
      tx.inputs.length ≠ 0 → tx.inputs.length ≤ 10000 → tx.outputs.length ≤ 65536 →
      tx.version < 2 ^ 32 → tx.locktime < 2 ^ 32 →
      (∀ i ∈ tx.inputs, i.txid.length = 32 ∧ i.script.length ≤ 100000
        ∧ i.vout < 2 ^ 32 ∧ i.sequence < 2 ^ 32 ∧ i.witnesses = []) →
      (∀ o ∈ tx.outputs, o.amount < 2 ^ 64 ∧ o.script.length ≤ 100000) →
      parseTx (exportBytes tx false ++ r) = .ok (tx, r)) := by
  refine ⟨?_, ?_, ?_, lem_parseTx_roundtrip⟩
  · intro b0 b1 b2 b3 n rest h1 h2
    unfold parseTx
    dsimp only [read4le]
    rw [lem_varint_read_encode n h2 rest]
    dsimp only
    rw [if_neg (by omega)]
    dsimp only
    rw [if_pos (by omega)]
  · intro b0 b1 b2 b3 flag n rest h1 h2
    unfold parseTx
    dsimp only [read4le]
    rw [show btcVarIntRead (0 :: flag :: (btcVarIntBytes n ++ rest))
        = some (0, flag :: (btcVarIntBytes n ++ rest)) by simp [btcVarIntRead]]
    dsimp only
    rw [if_pos rfl]
    rw [lem_varint_read_encode n h2 rest]
    dsimp only
    rw [if_pos (by omega)]
  · intro b0 b1 b2 b3 l m rest hl1 hl2 hm1 hm2 halli
    unfold parseTx
    dsimp only [read4le]
    rw [lem_varint_read_encode l.length (by omega)]
    dsimp only
    rw [if_neg hl1]
    dsimp only
    rw [if_neg (by omega)]
    rw [lem_parseInputs l _ halli]
    dsimp only
    rw [lem_varint_read_encode m hm2 rest]
    dsimp only
    rw [if_pos (by omega)]

/-- C8 witness: the bounds theorem applied at concrete inputs — an
11-byte stream whose input count decodes to 10001 is rejected, and the
concrete transaction `txC8` round-trips. -/
theorem parseTx_count_bounds_witness :
    parseTx (1 :: 0 :: 0 :: 0 :: (btcVarIntBytes 10001 ++ []))
      = .error "invalid transaction: too many inputs"
    ∧ parseTx (exportBytes txC8 false ++ [9])
      = .ok (txC8, [9]) :=
  ⟨parseTx_count_bounds.1 1 0 0 0 10001 [] (by norm_num) (by norm_num),
   parseTx_count_bounds.2.2.2 txC8 [9] (by decide) (by decide) (by decide)
     (by decide) (by decide) (by decide) (by decide)⟩

theorem lem_pushBytes_small (h : List Nat) (hle : h.length ≤ 75) :
    PushBytes h = h.length :: h := by
  simp [PushBytes, hle]

theorem lem_parsePushBytesData_small (h : List Nat) (hle : h.length ≤ 75) :
    parsePushBytesData (h.length :: h) = some (some h) := by
  simp [parsePushBytesData, ParsePushBytes, hle, List.take_length]

theorem lem_baseName_vals :
    baseName "p2wpkh" = "p2wpkh" ∧ baseName "p2wsh" = "p2wsh"
    ∧ baseName "p2pkh" = "p2pkh" ∧ baseName "p2pukh" = "p2pukh"
    ∧ baseName "p2sh" = "p2sh" := by
  refine ⟨rfl, rfl, rfl, rfl, rfl⟩

/-! ## Claim C10 -/

/-- C10: with no network flag argument and no flags stored on the `Out`,
`Address` on a `p2wpkh` or `p2wsh` out returns an error rather than
defaulting to a network, while a `p2pkh`, `p2pukh` or `p2sh` out
defaults to the Bitcoin Base58Check encoding — version byte 0x00 for
the keyhash forms and 0x05 for the script-hash form. -/
theorem outAddress_default_network (env : Env) :
    (∀ w : List Nat, w.length ≤ 75 →
      outAddress env (makeOut "p2wpkh" (0 :: PushBytes w)) []
        = some (.error "could not transform outscript of format p2wpkh"))
    ∧ (∀ w : List Nat, w.length ≤ 75 →
      outAddress env (makeOut "p2wsh" (0 :: PushBytes w)) []
        = some (.error "could not transform outscript of format p2wsh"))
    ∧ (∀ h : List Nat, h.length ≤ 75 →
      outAddress env (makeOut "p2pkh" ([0x76, 0xa9] ++ PushBytes h ++ [0x88, 0xac])) []
        = some (.ok (encodeBase58addr env 0x00 h)))
    ∧ (∀ h : List Nat, h.length ≤ 75 →
      outAddress env (makeOut "p2pukh" ([0x76, 0xa9] ++ PushBytes h ++ [0x88, 0xac])) []
        = some (.ok (encodeBase58addr env 0x00 h)))
    ∧ (∀ h : List Nat, h.length ≤ 75 →
      outAddress env (makeOut "p2sh" (0xa9 :: (PushBytes h ++ [0x87]))) []
        = some (.ok (encodeBase58addr env 0x05 h))) := by
  refine ⟨?_, ?_, ?_, ?_, ?_⟩
  · intro w hle
    rw [lem_pushBytes_small w hle]
    unfold outAddress makeOut
    rw [lem_baseName_vals.1]
    simp [lem_parsePushBytesData_small w hle]
  · intro w hle
    rw [lem_pushBytes_small w hle]
    unfold outAddress makeOut
    rw [lem_baseName_vals.2.1]
    simp [lem_parsePushBytesData_small w hle]
  · intro h hle
    rw [lem_pushBytes_small h hle]
    unfold outAddress makeOut
    rw [lem_baseName_vals.2.2.1]
    have hdt : (([0x76, 0xa9] ++ (h.length :: h) ++ [0x88, 0xac]).drop 2).take
        (([0x76, 0xa9] ++ (h.length :: h) ++ [0x88, 0xac]).length - 4)
        = h.length :: h := by
      have h1 : ([0x76, 0xa9] ++ (h.length :: h) ++ [0x88, 0xac]).length - 4
          = (h.length :: h).length := by
        simp only [List.length_append, List.length_cons, List.length_nil]
        omega
      have h2 : ([0x76, 0xa9] ++ (h.length :: h) ++ [0x88, 0xac]).drop 2
          = (h.length :: h) ++ [0x88, 0xac] := rfl
      rw [h1, h2, List.take_left]
    simp [hdt, lem_parsePushBytesData_small h hle]
  · intro h hle
    rw [lem_pushBytes_small h hle]
    unfold outAddress makeOut
    rw [lem_baseName_vals.2.2.2.1]
    have hdt : (([0x76, 0xa9] ++ (h.length :: h) ++ [0x88, 0xac]).drop 2).take
        (([0x76, 0xa9] ++ (h.length :: h) ++ [0x88, 0xac]).length - 4)
        = h.length :: h := by
      have h1 : ([0x76, 0xa9] ++ (h.length :: h) ++ [0x88, 0xac]).length - 4
          = (h.length :: h).length := by
        simp only [List.length_append, List.length_cons, List.length_nil]
        omega
      have h2 : ([0x76, 0xa9] ++ (h.length :: h) ++ [0x88, 0xac]).drop 2
          = (h.length :: h) ++ [0x88, 0xac] := rfl
      rw [h1, h2, List.take_left]
    simp [hdt, lem_parsePushBytesData_small h hle]
  · intro h hle
    rw [lem_pushBytes_small h hle]
    unfold outAddress makeOut
    rw [lem_baseName_vals.2.2.2.2]
    have hdt : ((0xa9 :: ((h.length :: h) ++ [0x87])).drop 1).take
        ((0xa9 :: ((h.length :: h) ++ [0x87])).length - 2)
        = h.length :: h := by
      have h1 : (0xa9 :: ((h.length :: h) ++ [0x87])).length - 2
          = (h.length :: h).length := by
        simp only [List.length_append, List.length_cons, List.length_nil]
        omega
      have h2 : (0xa9 :: ((h.length :: h) ++ [0x87])).drop 1
          = (h.length :: h) ++ [0x87] := rfl
      rw [h1, h2, List.take_left]
    simp [hdt, lem_parsePushBytesData_small h hle]

/-- C10 witness: the theorem applied at concrete 2-byte payloads. -/
theorem outAddress_default_network_witness :
    (([5, 6] : List Nat).length ≤ 75)
    ∧ outAddress dEnv (makeOut "p2wpkh" (0 :: PushBytes [5, 6])) []
        = some (.error "could not transform outscript of format p2wpkh")
    ∧ outAddress dEnv (makeOut "p2pkh" ([0x76, 0xa9] ++ PushBytes [5, 6] ++ [0x88, 0xac])) []
        = some (.ok (encodeBase58addr dEnv 0x00 [5, 6])) :=
  ⟨by norm_num,
   (outAddress_default_network dEnv).1 [5, 6] (by norm_num),
   (outAddress_default_network dEnv).2.2.1 [5, 6] (by norm_num)⟩

theorem lem_hash160_len (env : Env)
    (h160 : ∀ v, (env.hashf .hripemd160 v).length = 20) :
    ∀ v, (hash160 env v).length = 20 := by
  intro v
  simp [hash160, cryptHash, h160]

theorem lem_gen_all (env : Env) (pk : PubKey) (c u : List Nat)
    (hc : pk.comp = some c) (hu : pk.uncomp = some u) :
    scriptGen env pk "p2pkh" = .ok (scriptP2pkh env c)
    ∧ scriptGen env pk "p2pukh" = .ok (scriptP2pukh env u)
    ∧ scriptGen env pk "p2pk" = .ok (scriptP2pk c)
    ∧ scriptGen env pk "p2puk" = .ok (scriptP2puk u)
    ∧ scriptGen env pk "p2wpkh" = .ok (scriptP2wpkhC env c)
    ∧ scriptGen env pk "p2sh:p2pkh" = .ok (scriptP2shOf env (scriptP2pkh env c))
    ∧ scriptGen env pk "p2sh:p2pukh" = .ok (scriptP2shOf env (scriptP2pukh env u))
    ∧ scriptGen env pk "p2sh:p2pk" = .ok (scriptP2shOf env (scriptP2pk c))
    ∧ scriptGen env pk "p2sh:p2puk" = .ok (scriptP2shOf env (scriptP2puk u))
    ∧ scriptGen env pk "p2sh:p2wpkh" = .ok (scriptP2shOf env (scriptP2wpkhC env c))
    ∧ scriptGen env pk "p2wsh:p2pkh" = .ok (scriptP2wshOf env (scriptP2pkh env c))
    ∧ scriptGen env pk "p2wsh:p2pukh" = .ok (scriptP2wshOf env (scriptP2pukh env u))
    ∧ scriptGen env pk "p2wsh:p2pk" = .ok (scriptP2wshOf env (scriptP2pk c))
    ∧ scriptGen env pk "p2wsh:p2puk" = .ok (scriptP2wshOf env (scriptP2puk u))
    ∧ scriptGen env pk "p2wsh:p2wpkh" = .ok (scriptP2wshOf env (scriptP2wpkhC env c)) := by
  refine ⟨?_, ?_, ?_, ?_, ?_, ?_, ?_, ?_, ?_, ?_, ?_, ?_, ?_, ?_, ?_⟩ <;>
    simp [scriptGen, genFuel, generate, newScript, lookupCache, findFormat, Formats,
      genPieces, genIns, getPubKeyBytes, hc, hu, hash160, cryptHash,
      scriptP2pkh, scriptP2pukh, scriptP2pk, scriptP2puk, scriptP2wpkhC,
      scriptP2shOf, scriptP2wshOf]

theorem lem_guess_p2wpkh (env : Env) (pk : PubKey) (c : List Nat)
    (h160 : ∀ v, (env.hashf .hripemd160 v).length = 20) :
    GuessOut env (scriptP2wpkhC env c) (some pk)
      = some (makeOut "p2wpkh" (scriptP2wpkhC env c)) := by
  unfold scriptP2wpkhC
  rw [lem_pushBytes_small _ (by rw [lem_hash160_len env h160]; omega)]
  simp [GuessOut, lem_hash160_len env h160 c]

theorem lem_guess_p2wsh (env : Env) (pk : PubKey) (inner : List Nat)
    (hsha : ∀ v, (env.hashf .hsha256 v).length = 32) :
    GuessOut env (scriptP2wshOf env inner) (some pk)
      = some (makeOut "p2wsh" (scriptP2wshOf env inner)) := by
  unfold scriptP2wshOf
  rw [lem_pushBytes_small _ (by rw [hsha]; omega)]
  simp [GuessOut, hsha inner]

theorem lem_guess_p2pk (env : Env) (pk : PubKey) (c : List Nat)
    (hcl : c.length = 33) :
    GuessOut env (scriptP2pk c) (some pk)
      = some (makeOut "p2pk" (scriptP2pk c)) := by
  unfold scriptP2pk
  rw [lem_pushBytes_small _ (by omega)]
  have htake : List.take 33 (c ++ [0xac]) = c := by
    rw [show (33 : Nat) = c.length from hcl.symm]
    exact List.take_left _ _
  simp [GuessOut, ParsePushBytes, PushBytes, hcl, htake, List.getLastD_cons,
    lem_getLastD_append_one, -List.getLastD_eq_getLast?]

theorem lem_guess_p2puk (env : Env) (pk : PubKey) (u : List Nat)
    (hul : u.length = 65) :
    GuessOut env (scriptP2puk u) (some pk)
      = some (makeOut "p2puk" (scriptP2puk u)) := by
  unfold scriptP2puk
  rw [lem_pushBytes_small _ (by omega)]
  have htake : List.take 65 (u ++ [0xac]) = u := by
    rw [show (65 : Nat) = u.length from hul.symm]
    exact List.take_left _ _
  simp [GuessOut, ParsePushBytes, PushBytes, hul, htake, List.getLastD_cons,
    lem_getLastD_append_one, -List.getLastD_eq_getLast?]

theorem lem_guess_p2pkh (env : Env) (pk : PubKey) (c u : List Nat)
    (hc : pk.comp = some c) (hu : pk.uncomp = some u)
    (h160 : ∀ v, (env.hashf .hripemd160 v).length = 20) :
    GuessOut env (scriptP2pkh env c) (some pk)
      = some (makeOut "p2pkh" (scriptP2pkh env c)) := by
  have hpush : ∀ v, PushBytes (hash160 env v) = 20 :: hash160 env v := fun v => by
    rw [lem_pushBytes_small _ (by rw [lem_hash160_len env h160]; omega),
      lem_hash160_len env h160]
  have hdrop : List.drop 20 (hash160 env c ++ [0x88, 0xac]) = [0x88, 0xac] := by
    rw [show (20 : Nat) = (hash160 env c).length from (lem_hash160_len env h160 c).symm]
    exact List.drop_left _ _
  simp only [hash160, cryptHash, List.foldl] at hpush hdrop
  unfold scriptP2pkh
  simp only [hash160, cryptHash, List.foldl]
  rw [hpush]
  simp [GuessOut, tryFormats, genFuel, generate, newScript, lookupCache, findFormat,
    Formats, genPieces, genIns, getPubKeyBytes, hc, hu, hash160, cryptHash, hpush,
    hdrop, h160, List.getLastD_cons, lem_getLastD_append_two,
    -List.getLastD_eq_getLast?]

theorem lem_guess_p2pukh (env : Env) (pk : PubKey) (c u : List Nat)
    (hc : pk.comp = some c) (hu : pk.uncomp = some u)
    (h160 : ∀ v, (env.hashf .hripemd160 v).length = 20)
    (d0 : hash160 env c ≠ hash160 env u) :
    GuessOut env (scriptP2pukh env u) (some pk)
      = some (makeOut "p2pukh" (scriptP2pukh env u)) := by
  have hpush : ∀ v, PushBytes (hash160 env v) = 20 :: hash160 env v := fun v => by
    rw [lem_pushBytes_small _ (by rw [lem_hash160_len env h160]; omega),
      lem_hash160_len env h160]
  have hdrop : List.drop 20 (hash160 env u ++ [0x88, 0xac]) = [0x88, 0xac] := by
    rw [show (20 : Nat) = (hash160 env u).length from (lem_hash160_len env h160 u).symm]
    exact List.drop_left _ _
  simp only [hash160, cryptHash, List.foldl] at hpush hdrop
  have d0' : env.hashf .hripemd160 (env.hashf .hsha256 c)
      ≠ env.hashf .hripemd160 (env.hashf .hsha256 u) := by
    simpa [hash160, cryptHash] using d0
  unfold scriptP2pukh
  simp only [hash160, cryptHash, List.foldl]
  rw [hpush]
  simp [GuessOut, tryFormats, genFuel, generate, newScript, lookupCache, findFormat,
    Formats, genPieces, genIns, getPubKeyBytes, hc, hu, hash160, cryptHash, hpush,
    hdrop, d0', h160, List.getLastD_cons, lem_getLastD_append_two,
    List.append_left_inj, -List.getLastD_eq_getLast?]

theorem lem_guess_p2sh_p2pk (env : Env) (pk : PubKey) (c u : List Nat)
    (hc : pk.comp = some c) (hu : pk.uncomp = some u)
    (hcl : c.length = 33)
    (h160 : ∀ v, (env.hashf .hripemd160 v).length = 20) :
    GuessOut env (scriptP2shOf env (scriptP2pk c)) (some pk)
      = some (makeOut "p2sh:p2pk" (scriptP2shOf env (scriptP2pk c))) := by
  have hpc : PushBytes c = 33 :: c := by
    rw [lem_pushBytes_small _ (by omega), hcl]
  have hpush : ∀ v, PushBytes (hash160 env v) = 20 :: hash160 env v := fun v => by
    rw [lem_pushBytes_small _ (by rw [lem_hash160_len env h160]; omega),
      lem_hash160_len env h160]
  have htake : ∀ v, List.take 20 (hash160 env v ++ [0x87]) = hash160 env v := fun v => by
    rw [show (20 : Nat) = (hash160 env v).length from (lem_hash160_len env h160 v).symm]
    exact List.take_left _ _
  simp only [hash160, cryptHash, List.foldl] at hpush htake
  unfold scriptP2shOf scriptP2pk
  simp only [hash160, cryptHash, List.foldl, hpc]
  rw [hpush]
  simp [GuessOut, ParsePushBytes, tryFormats, genFuel, generate, newScript, lookupCache,
    findFormat, Formats, genPieces, genIns, getPubKeyBytes, hc, hu, hash160, cryptHash,
    hpc, hpush, htake, h160, List.getLastD_cons, lem_getLastD_append_one,
    -List.getLastD_eq_getLast?]

theorem lem_guess_p2sh_p2pkh (env : Env) (pk : PubKey) (c u : List Nat)
    (hc : pk.comp = some c) (hu : pk.uncomp = some u)
    (hcl : c.length = 33)
    (h160 : ∀ v, (env.hashf .hripemd160 v).length = 20)
    (d1 : hash160 env (scriptP2pk c) ≠ hash160 env (scriptP2pkh env c)) :
    GuessOut env (scriptP2shOf env (scriptP2pkh env c)) (some pk)
      = some (makeOut "p2sh:p2pkh" (scriptP2shOf env (scriptP2pkh env c))) := by
  have hpc : PushBytes c = 33 :: c := by
    rw [lem_pushBytes_small _ (by omega), hcl]
  have hpush : ∀ v, PushBytes (hash160 env v) = 20 :: hash160 env v := fun v => by
    rw [lem_pushBytes_small _ (by rw [lem_hash160_len env h160]; omega),
      lem_hash160_len env h160]
  have htake : ∀ v, List.take 20 (hash160 env v ++ [0x87]) = hash160 env v := fun v => by
    rw [show (20 : Nat) = (hash160 env v).length from (lem_hash160_len env h160 v).symm]
    exact List.take_left _ _
  simp only [scriptP2pk, scriptP2pkh, hash160, cryptHash, List.foldl, hpc] at d1
  simp only [hash160, cryptHash, List.foldl] at hpush htake
  simp only [hpush, List.cons_append, List.nil_append, List.append_assoc] at d1
  unfold scriptP2shOf scriptP2pkh
  simp only [hash160, cryptHash, List.foldl, hpc]
  rw [hpush]
  simp [GuessOut, ParsePushBytes, tryFormats, genFuel, generate, newScript, lookupCache,
    findFormat, Formats, genPieces, genIns, getPubKeyBytes, hc, hu, hash160, cryptHash,
    hpc, hpush, htake, h160, d1, List.getLastD_cons, lem_getLastD_append_one,
    -List.getLastD_eq_getLast?, List.append_left_inj]

theorem lem_guess_p2sh_p2puk (env : Env) (pk : PubKey) (c u : List Nat)
    (hc : pk.comp = some c) (hu : pk.uncomp = some u)
    (hcl : c.length = 33) (hul : u.length = 65)
    (h160 : ∀ v, (env.hashf .hripemd160 v).length = 20)
    (d1 : hash160 env (scriptP2pk c) ≠ hash160 env (scriptP2puk u))
    (d2 : hash160 env (scriptP2pkh env c) ≠ hash160 env (scriptP2puk u)) :
    GuessOut env (scriptP2shOf env (scriptP2puk u)) (some pk)
      = some (makeOut "p2sh:p2puk" (scriptP2shOf env (scriptP2puk u))) := by
  have hpc : PushBytes c = 33 :: c := by
    rw [lem_pushBytes_small _ (by omega), hcl]
  have hpu : PushBytes u = 65 :: u := by
    rw [lem_pushBytes_small _ (by omega), hul]
  have hpush : ∀ v, PushBytes (hash160 env v) = 20 :: hash160 env v := fun v => by
    rw [lem_pushBytes_small _ (by rw [lem_hash160_len env h160]; omega),
      lem_hash160_len env h160]
  have htake : ∀ v, List.take 20 (hash160 env v ++ [0x87]) = hash160 env v := fun v => by
    rw [show (20 : Nat) = (hash160 env v).length from (lem_hash160_len env h160 v).symm]
    exact List.take_left _ _
  simp only [scriptP2pk, scriptP2pkh, scriptP2puk, hash160, cryptHash, List.foldl,
    hpc, hpu] at d1 d2
  simp only [hash160, cryptHash, List.foldl] at hpush htake
  simp only [hpush, List.cons_append, List.nil_append, List.append_assoc] at d1 d2
  unfold scriptP2shOf scriptP2puk
  simp only [hash160, cryptHash, List.foldl, hpu]
  rw [hpush]
  simp [GuessOut, ParsePushBytes, tryFormats, genFuel, generate, newScript, lookupCache,
    findFormat, Formats, genPieces, genIns, getPubKeyBytes, hc, hu, hash160, cryptHash,
    hpc, hpu, hpush, htake, h160, d1, d2, List.getLastD_cons, lem_getLastD_append_one,
    -List.getLastD_eq_getLast?, List.append_left_inj]

theorem lem_guess_p2sh_p2pukh (env : Env) (pk : PubKey) (c u : List Nat)
    (hc : pk.comp = some c) (hu : pk.uncomp = some u)
    (hcl : c.length = 33) (hul : u.length = 65)
    (h160 : ∀ v, (env.hashf .hripemd160 v).length = 20)
    (d1 : hash160 env (scriptP2pk c) ≠ hash160 env (scriptP2pukh env u))
    (d2 : hash160 env (scriptP2pkh env c) ≠ hash160 env (scriptP2pukh env u))
    (d3 : hash160 env (scriptP2puk u) ≠ hash160 env (scriptP2pukh env u)) :
    GuessOut env (scriptP2shOf env (scriptP2pukh env u)) (some pk)
      = some (makeOut "p2sh:p2pukh" (scriptP2shOf env (scriptP2pukh env u))) := by
  have hpc : PushBytes c = 33 :: c := by
    rw [lem_pushBytes_small _ (by omega), hcl]
  have hpu : PushBytes u = 65 :: u := by
    rw [lem_pushBytes_small _ (by omega), hul]
  have hpush : ∀ v, PushBytes (hash160 env v) = 20 :: hash160 env v := fun v => by
    rw [lem_pushBytes_small _ (by rw [lem_hash160_len env h160]; omega),
      lem_hash160_len env h160]
  have htake : ∀ v, List.take 20 (hash160 env v ++ [0x87]) = hash160 env v := fun v => by
    rw [show (20 : Nat) = (hash160 env v).length from (lem_hash160_len env h160 v).symm]
    exact List.take_left _ _
  simp only [scriptP2pk, scriptP2pkh, scriptP2puk, scriptP2pukh, hash160, cryptHash,
    List.foldl, hpc, hpu] at d1 d2 d3
  simp only [hash160, cryptHash, List.foldl] at hpush htake
  simp only [hpush, List.cons_append, List.nil_append, List.append_assoc] at d1 d2 d3
  unfold scriptP2shOf scriptP2pukh
  simp only [hash160, cryptHash, List.foldl, hpu]
  rw [hpush]
  simp [GuessOut, ParsePushBytes, tryFormats, genFuel, generate, newScript, lookupCache,
    findFormat, Formats, genPieces, genIns, getPubKeyBytes, hc, hu, hash160, cryptHash,
    hpc, hpu, hpush, htake, h160, d1, d2, d3, List.getLastD_cons, lem_getLastD_append_one,
    -List.getLastD_eq_getLast?, List.append_left_inj]

theorem lem_guess_p2sh_p2wpkh (env : Env) (pk : PubKey) (c u : List Nat)
    (hc : pk.comp = some c) (hu : pk.uncomp = some u)
    (hcl : c.length = 33) (hul : u.length = 65)
    (h160 : ∀ v, (env.hashf .hripemd160 v).length = 20)
    (d1 : hash160 env (scriptP2pk c) ≠ hash160 env (scriptP2wpkhC env c))
    (d2 : hash160 env (scriptP2pkh env c) ≠ hash160 env (scriptP2wpkhC env c))
    (d3 : hash160 env (scriptP2puk u) ≠ hash160 env (scriptP2wpkhC env c))
    (d4 : hash160 env (scriptP2pukh env u) ≠ hash160 env (scriptP2wpkhC env c)) :
    GuessOut env (scriptP2shOf env (scriptP2wpkhC env c)) (some pk)
      = some (makeOut "p2sh:p2wpkh" (scriptP2shOf env (scriptP2wpkhC env c))) := by
  have hpc : PushBytes c = 33 :: c := by
    rw [lem_pushBytes_small _ (by omega), hcl]
  have hpu : PushBytes u = 65 :: u := by
    rw [lem_pushBytes_small _ (by omega), hul]
  have hpush : ∀ v, PushBytes (hash160 env v) = 20 :: hash160 env v := fun v => by
    rw [lem_pushBytes_small _ (by rw [lem_hash160_len env h160]; omega),
      lem_hash160_len env h160]
  have htake : ∀ v, List.take 20 (hash160 env v ++ [0x87]) = hash160 env v := fun v => by
    rw [show (20 : Nat) = (hash160 env v).length from (lem_hash160_len env h160 v).symm]
    exact List.take_left _ _
  simp only [scriptP2pk, scriptP2pkh, scriptP2puk, scriptP2pukh, scriptP2wpkhC,
    hash160, cryptHash, List.foldl, hpc, hpu] at d1 d2 d3 d4
  simp only [hash160, cryptHash, List.foldl] at hpush htake
  simp only [hpush, List.cons_append, List.nil_append, List.append_assoc] at d1 d2 d3 d4
  unfold scriptP2shOf scriptP2wpkhC
  simp only [hash160, cryptHash, List.foldl]
  rw [hpush, hpush]
  simp [GuessOut, ParsePushBytes, tryFormats, genFuel, generate, newScript, lookupCache,
    findFormat, Formats, genPieces, genIns, getPubKeyBytes, hc, hu, hash160, cryptHash,
    hpc, hpu, hpush, htake, h160, d1, d2, d3, d4, List.getLastD_cons,
    lem_getLastD_append_one, -List.getLastD_eq_getLast?, List.append_left_inj]

/-! ## Claim C3 -/

/-- C3 (amended): with a correct public-key hint, `GuessOut` recovers the
exact format name for the unhashed and `p2sh`-wrapped forms — `p2pk`,
`p2pkh`, `p2puk`, `p2pukh`, `p2wpkh` and the five `p2sh:*` entries —
provided the compressed and uncompressed key hashes and the hashes of
the five candidate redeem scripts are pairwise distinct (as they are for
honest hash functions); for the five `p2wsh:*` entries it returns the
bare name `"p2wsh"`, not the generating name, and the `eth` format is
never recovered, so the original blanket statement over every entry of
the `Formats` table fails. -/
theorem guessOut_recovers (env : Env) (pk : PubKey) (c u : List Nat)
    (hc : pk.comp = some c) (hu : pk.uncomp = some u)
    (hcl : c.length = 33) (hul : u.length = 65)
    (h160 : ∀ v, (env.hashf .hripemd160 v).length = 20)
    (hsha : ∀ v, (env.hashf .hsha256 v).length = 32)
    (d0 : hash160 env c ≠ hash160 env u)
    (d12 : hash160 env (scriptP2pk c) ≠ hash160 env (scriptP2pkh env c))
    (d13 : hash160 env (scriptP2pk c) ≠ hash160 env (scriptP2puk u))
    (d14 : hash160 env (scriptP2pk c) ≠ hash160 env (scriptP2pukh env u))
    (d15 : hash160 env (scriptP2pk c) ≠ hash160 env (scriptP2wpkhC env c))
    (d23 : hash160 env (scriptP2pkh env c) ≠ hash160 env (scriptP2puk u))
    (d24 : hash160 env (scriptP2pkh env c) ≠ hash160 env (scriptP2pukh env u))
    (d25 : hash160 env (scriptP2pkh env c) ≠ hash160 env (scriptP2wpkhC env c))
    (d34 : hash160 env (scriptP2puk u) ≠ hash160 env (scriptP2pukh env u))
    (d35 : hash160 env (scriptP2puk u) ≠ hash160 env (scriptP2wpkhC env c))
    (d45 : hash160 env (scriptP2pukh env u) ≠ hash160 env (scriptP2wpkhC env c)) :
    (∀ name ∈ ["p2pk", "p2pkh", "p2puk", "p2pukh", "p2wpkh", "p2sh:p2pk",
        "p2sh:p2pkh", "p2sh:p2puk", "p2sh:p2pukh", "p2sh:p2wpkh"],
      ∀ s, scriptGen env pk name = .ok s →
        GuessOut env s (some pk) = some (makeOut name s))
    ∧ (∀ name ∈ ["p2wsh:p2pk", "p2wsh:p2pkh", "p2wsh:p2puk", "p2wsh:p2pukh",
        "p2wsh:p2wpkh"],
      ∀ s, scriptGen env pk name = .ok s →
        GuessOut env s (some pk) = some (makeOut "p2wsh" s)) := by
  obtain ⟨g1, g2, g3, g4, g5, g6, g7, g8, g9, g10, g11, g12, g13, g14, g15⟩ :=
    lem_gen_all env pk c u hc hu
  constructor
  · intro name hname s hs
    simp only [List.mem_cons, List.not_mem_nil, or_false] at hname
    rcases hname with rfl | rfl | rfl | rfl | rfl | rfl | rfl | rfl | rfl | rfl
    · rw [g3] at hs; obtain rfl := Except.ok.inj hs
      exact lem_guess_p2pk env pk c hcl
    · rw [g1] at hs; obtain rfl := Except.ok.inj hs
      exact lem_guess_p2pkh env pk c u hc hu h160
    · rw [g4] at hs; obtain rfl := Except.ok.inj hs
      exact lem_guess_p2puk env pk u hul
    · rw [g2] at hs; obtain rfl := Except.ok.inj hs
      exact lem_guess_p2pukh env pk c u hc hu h160 d0
    · rw [g5] at hs; obtain rfl := Except.ok.inj hs
      exact lem_guess_p2wpkh env pk c h160
    · rw [g8] at hs; obtain rfl := Except.ok.inj hs
      exact lem_guess_p2sh_p2pk env pk c u hc hu hcl h160
    · rw [g6] at hs; obtain rfl := Except.ok.inj hs
      exact lem_guess_p2sh_p2pkh env pk c u hc hu hcl h160 d12
    · rw [g9] at hs; obtain rfl := Except.ok.inj hs
      exact lem_guess_p2sh_p2puk env pk c u hc hu hcl hul h160 d13 d23
    · rw [g7] at hs; obtain rfl := Except.ok.inj hs
      exact lem_guess_p2sh_p2pukh env pk c u hc hu hcl hul h160 d14 d24 d34
    · rw [g10] at hs; obtain rfl := Except.ok.inj hs
      exact lem_guess_p2sh_p2wpkh env pk c u hc hu hcl hul h160 d15 d25 d35 d45
  · intro name hname s hs
    simp only [List.mem_cons, List.not_mem_nil, or_false] at hname
    rcases hname with rfl | rfl | rfl | rfl | rfl
    · rw [g13] at hs; obtain rfl := Except.ok.inj hs
      exact lem_guess_p2wsh env pk _ hsha
    · rw [g11] at hs; obtain rfl := Except.ok.inj hs
      exact lem_guess_p2wsh env pk _ hsha
    · rw [g14] at hs; obtain rfl := Except.ok.inj hs
      exact lem_guess_p2wsh env pk _ hsha
    · rw [g12] at hs; obtain rfl := Except.ok.inj hs
      exact lem_guess_p2wsh env pk _ hsha
    · rw [g15] at hs; obtain rfl := Except.ok.inj hs
      exact lem_guess_p2wsh env pk _ hsha

theorem guessOut_recovers_witness :
    GuessOut dEnv (scriptP2shOf dEnv (scriptP2pukh dEnv (List.replicate 65 4))) (some dPk)
      = some (makeOut "p2sh:p2pukh"
          (scriptP2shOf dEnv (scriptP2pukh dEnv (List.replicate 65 4)))) :=
  (guessOut_recovers dEnv dPk (List.replicate 33 2) (List.replicate 65 4)
      rfl rfl (by decide) (by decide)
      (fun v => by simp [dEnv, dHash]) (fun v => by simp [dEnv, dHash])
      (by decide) (by decide) (by decide) (by decide) (by decide) (by decide)
      (by decide) (by decide) (by decide) (by decide) (by decide)).1
    "p2sh:p2pukh" (by decide) _ (by rfl)

/-- C3 counterexample to the original claim: for the concrete fixture
key, generating `"p2wsh:p2pkh"` succeeds, yet `GuessOut` on the result
with the same key as hint names it `"p2wsh"`, and generating `"eth"`
succeeds yet `GuessOut` names the result `"invalid"`; in both cases the
recovered name differs from the registered format name that produced
the script. -/
theorem guessOut_not_recovering_p2wsh_inner_or_eth :
    scriptGen dEnv dPk "p2wsh:p2pkh"
      = .ok (scriptP2wshOf dEnv (scriptP2pkh dEnv (List.replicate 33 2)))
    ∧ GuessOut dEnv (scriptP2wshOf dEnv (scriptP2pkh dEnv (List.replicate 33 2)))
        (some dPk)
      = some (makeOut "p2wsh"
          (scriptP2wshOf dEnv (scriptP2pkh dEnv (List.replicate 33 2))))
    ∧ ("p2wsh" : String) ≠ "p2wsh:p2pkh"
    ∧ scriptGen dEnv dPk "eth" = .ok (List.replicate 20 0)
    ∧ GuessOut dEnv (List.replicate 20 0) (some dPk)
      = some (makeOut "invalid" (List.replicate 20 0))
    ∧ ("invalid" : String) ≠ "eth" :=
  ⟨rfl, rfl, by decide, rfl, rfl, by decide⟩
